import Mathlib

/-!
Verification of the MIDI event/track/file engine (`src/midi/`) of the
mkmidilibrary repository, as a shallow embedding in Lean.

Modelling conventions, used consistently below:

* Rust machine integers (`u8`, `u16`, `u32`, `u64`, `usize`) are modelled as
  `Nat`; a value of type `uN` always satisfies `x < 2^N`, and universal
  theorems over raw byte input carry that bound as a hypothesis.
* Bit operations on these bounded values are translated to arithmetic:
  `x & 0x7F = x % 128`, `x >> 7 = x / 128`, `x << 7 = x * 128`,
  `x & 0x80 == 0 ↔ x < 128` (for `x < 256`), `x & 0x0F = x % 16` and
  `x & 0xF0 = (x / 16) * 16` (for `x < 256`), `x as u8 = x % 256`, and
  `a | b = a + b` when the set bits of `a` and `b` are disjoint
  (e.g. `0x90 | channel` for a 4-bit channel, `lo | (hi << 7)` for 7-bit
  data bytes).  Each definition notes the identity it relies on.
* Rust `String` values are modelled as their UTF-8 byte lists (`List Nat`);
  `String::from_utf8_lossy` composed with `as_bytes` is the identity on the
  valid UTF-8 byte lists produced by a `String`, so text decoding is the
  identity on the byte list.
* `f64` arithmetic (only in the tick↔seconds time map) is modelled over `ℚ`;
  the divergences analysed below are by factors of 2 and are unaffected by
  floating-point rounding.
* Fallible Rust code returns `Option`/`Except`; a Rust panic (out-of-bounds
  slice index) is modelled as the `none` outcome of an `Option` layered
  outside the typed-error `Except`.
-/

namespace MidiSpec

/-! ## Meta events (src/midi/message.rs, `MetaEvent`) -/

/-- `MetaEvent` from message.rs.  Strings are modelled as UTF-8 byte lists,
`u8` fields as `Nat`, the `i8` field of `KeySignature` as `Int`.
`ChannelPrefix` is rendered `channelPfx` (Lean-side naming restriction). -/
inductive MetaEvent : Type where
  | sequenceNumber (n : Nat)
  | text (s : List Nat)
  | copyright (s : List Nat)
  | trackName (s : List Nat)
  | instrumentName (s : List Nat)
  | lyric (s : List Nat)
  | marker (s : List Nat)
  | cuePoint (s : List Nat)
  | programName (s : List Nat)
  | deviceName (s : List Nat)
  | channelPfx (ch : Nat)
  | midiPort (port : Nat)
  | endOfTrack
  | tempo (us : Nat)
  | smpteOffset (hours minutes seconds frames subframes : Nat)
  | timeSignature (numerator denominator_power clocks_per_click notated_32nd_per_quarter : Nat)
  | keySignature (sharps_flats : Int) (minor : Bool)
  | sequencerSpecific (data : List Nat)
  | unknown (type_ : Nat) (data : List Nat)
deriving DecidableEq

/-- The `while v > 0` push loop shared by `write_varlen` (file.rs) and
`MetaEvent::encode_varlen` (message.rs), in push order (low chunk first).
Each iteration pushes `(v & 0x7F) | 0x80 = v % 128 + 128` and shifts
`v >>= 7`, i.e. `v := v / 128`.  The loop runs once per remaining 7-bit
chunk; the input is a `u32` whose first chunk was already pushed by the
caller, so at most four iterations occur and fuel 4 is exact. -/
def varlenLoop : Nat → Nat → List Nat
  | _, 0 => []
  | 0, _ => []
  | fuel + 1, v + 1 => ((v + 1) % 128 + 128) :: varlenLoop fuel ((v + 1) / 128)

/-- `MetaEvent::encode_varlen` (message.rs): push `v & 0x7F`, then the
continuation loop, then reverse. -/
def encode_varlen (v : Nat) : List Nat :=
  (v % 128 :: varlenLoop 4 (v / 128)).reverse

/-- The `for byte in data.iter().take(4)` accumulation loop shared by
`read_varlen` (file.rs) and `MetaEvent::decode_varlen` (message.rs):
`value = (value << 7) | (byte & 0x7F)`, stopping when `byte & 0x80 == 0`
(equivalently `byte < 128` for a `u8`). -/
def readVarlenGo : List Nat → Nat → Nat → Option (Nat × Nat)
  | [], _, _ => none
  | b :: rest, value, bytes_read =>
    let value' := value * 128 + b % 128
    if b < 128 then some (value', bytes_read + 1) else readVarlenGo rest value' (bytes_read + 1)

/-- `MetaEvent::decode_varlen` (message.rs). -/
def decode_varlen (data : List Nat) : Option (Nat × Nat) :=
  readVarlenGo (data.take 4) 0 0

/-- `MetaEvent::type_byte` (message.rs). -/
def MetaEvent.type_byte : MetaEvent → Nat
  | .sequenceNumber _ => 0x00
  | .text _ => 0x01
  | .copyright _ => 0x02
  | .trackName _ => 0x03
  | .instrumentName _ => 0x04
  | .lyric _ => 0x05
  | .marker _ => 0x06
  | .cuePoint _ => 0x07
  | .programName _ => 0x08
  | .deviceName _ => 0x09
  | .channelPfx _ => 0x20
  | .midiPort _ => 0x21
  | .endOfTrack => 0x2F
  | .tempo _ => 0x51
  | .smpteOffset _ _ _ _ _ => 0x54
  | .timeSignature _ _ _ _ => 0x58
  | .keySignature _ _ => 0x59
  | .sequencerSpecific _ => 0x7F
  | .unknown type_ _ => type_

/-- The payload of `MetaEvent::to_bytes` (message.rs).  `(n >> 8) as u8` is
`n / 256 % 256`, `n as u8` is `n % 256`; the `i8` of `KeySignature` is cast
to `u8` as its value modulo 256. -/
def MetaEvent.payload : MetaEvent → List Nat
  | .sequenceNumber n => [n / 256 % 256, n % 256]
  | .text s | .copyright s | .trackName s | .instrumentName s | .lyric s
  | .marker s | .cuePoint s | .programName s | .deviceName s => s
  | .channelPfx ch => [ch]
  | .midiPort port => [port]
  | .endOfTrack => []
  | .tempo us => [us / 65536 % 256, us / 256 % 256, us % 256]
  | .smpteOffset h m s f sf => [h, m, s, f, sf]
  | .timeSignature n d c t => [n, d, c, t]
  | .keySignature s minor => [(s % 256).toNat, if minor then 1 else 0]
  | .sequencerSpecific data => data
  | .unknown _ data => data

/-- `MetaEvent::to_bytes` (message.rs): `0xFF, type_byte, varlen(len), payload`. -/
def MetaEvent.to_bytes (m : MetaEvent) : List Nat :=
  0xFF :: m.type_byte :: (encode_varlen m.payload.length ++ m.payload)

/-- The `let event = match type_byte { ... }` dispatch of
`MetaEvent::from_bytes` (message.rs).  The guarded match arms fall through
to `Unknown` when a guard fails, exactly as in the source.
`(b0 << 8) | b1 = b0 * 256 + b1` and `(b0 << 16) | (b1 << 8) | b2 =
b0 * 65536 + b1 * 256 + b2` for byte values; `event_data[0] as i8` is `b`
if `b < 128` else `b - 256`. -/
def metaParse (type_byte : Nat) (event_data : List Nat) : MetaEvent :=
  if type_byte = 0x00 ∧ 2 ≤ event_data.length then
    .sequenceNumber (event_data.getD 0 0 * 256 + event_data.getD 1 0)
  else if type_byte = 0x01 then .text event_data
  else if type_byte = 0x02 then .copyright event_data
  else if type_byte = 0x03 then .trackName event_data
  else if type_byte = 0x04 then .instrumentName event_data
  else if type_byte = 0x05 then .lyric event_data
  else if type_byte = 0x06 then .marker event_data
  else if type_byte = 0x07 then .cuePoint event_data
  else if type_byte = 0x08 then .programName event_data
  else if type_byte = 0x09 then .deviceName event_data
  else if type_byte = 0x20 ∧ event_data ≠ [] then .channelPfx (event_data.getD 0 0)
  else if type_byte = 0x21 ∧ event_data ≠ [] then .midiPort (event_data.getD 0 0)
  else if type_byte = 0x2F then .endOfTrack
  else if type_byte = 0x51 ∧ 3 ≤ event_data.length then
    .tempo (event_data.getD 0 0 * 65536 + event_data.getD 1 0 * 256 + event_data.getD 2 0)
  else if type_byte = 0x54 ∧ 5 ≤ event_data.length then
    .smpteOffset (event_data.getD 0 0) (event_data.getD 1 0) (event_data.getD 2 0)
      (event_data.getD 3 0) (event_data.getD 4 0)
  else if type_byte = 0x58 ∧ 4 ≤ event_data.length then
    .timeSignature (event_data.getD 0 0) (event_data.getD 1 0) (event_data.getD 2 0)
      (event_data.getD 3 0)
  else if type_byte = 0x59 ∧ 2 ≤ event_data.length then
    .keySignature
      (if event_data.getD 0 0 < 128 then (event_data.getD 0 0 : Int)
       else (event_data.getD 0 0 : Int) - 256)
      (event_data.getD 1 0 ≠ 0)
  else if type_byte = 0x7F then .sequencerSpecific event_data
  else .unknown type_byte event_data

/-- `MetaEvent::from_bytes` (message.rs), on the bytes after the `0xFF`
prefix: read the type byte, the varlen payload length, check the payload is
present, and dispatch on the type byte. -/
def MetaEvent.from_bytes (data : List Nat) : Option (MetaEvent × Nat) :=
  match data with
  | [] => none
  | type_byte :: rest =>
    match decode_varlen rest with
    | none => none
    | some (length, varlen_size) =>
      let data_start := 1 + varlen_size
      let data_end := data_start + length
      if data.length < data_end then none
      else some (metaParse type_byte ((data.drop data_start).take length), data_end)

/-! ## MIDI messages (src/midi/message.rs, `MidiMessage`) -/

/-- `MidiMessage` from message.rs.  `Continue` is rendered `cont`. -/
inductive MidiMessage : Type where
  | noteOff (channel key velocity : Nat)
  | noteOn (channel key velocity : Nat)
  | polyPressure (channel key pressure : Nat)
  | controlChange (channel controller value : Nat)
  | programChange (channel program : Nat)
  | channelPressure (channel pressure : Nat)
  | pitchBend (channel value : Nat)
  | sysEx (data : List Nat)
  | meta (m : MetaEvent)
  | mtcQuarterFrame (d : Nat)
  | songPosition (pos : Nat)
  | songSelect (song : Nat)
  | tuneRequest
  | timingClock
  | start
  | cont
  | stop
  | activeSensing
  | systemReset
deriving DecidableEq

/-- `MidiMessage::note_on` constructor: masks `channel & 0x0F = channel % 16`
and the 7-bit fields `& 0x7F = % 128`. -/
def MidiMessage.note_on (channel key velocity : Nat) : MidiMessage :=
  .noteOn (channel % 16) (key % 128) (velocity % 128)

/-- `MidiMessage::note_off` constructor. -/
def MidiMessage.note_off (channel key velocity : Nat) : MidiMessage :=
  .noteOff (channel % 16) (key % 128) (velocity % 128)

/-- `MidiMessage::control_change` constructor. -/
def MidiMessage.control_change (channel controller value : Nat) : MidiMessage :=
  .controlChange (channel % 16) (controller % 128) (value % 128)

/-- `MidiMessage::program_change` constructor. -/
def MidiMessage.program_change (channel program : Nat) : MidiMessage :=
  .programChange (channel % 16) (program % 128)

/-- `MidiMessage::pitch_bend` constructor: `value & 0x3FFF = value % 16384`. -/
def MidiMessage.pitch_bend (channel value : Nat) : MidiMessage :=
  .pitchBend (channel % 16) (value % 16384)

/-- `MidiMessage::channel` (message.rs). -/
def MidiMessage.channel : MidiMessage → Option Nat
  | .noteOff ch _ _ => some ch
  | .noteOn ch _ _ => some ch
  | .polyPressure ch _ _ => some ch
  | .controlChange ch _ _ => some ch
  | .programChange ch _ => some ch
  | .channelPressure ch _ => some ch
  | .pitchBend ch _ => some ch
  | _ => none

/-- `MidiMessage::is_note_on` (message.rs): a `NoteOn` with velocity `> 0`. -/
def MidiMessage.is_note_on : MidiMessage → Bool
  | .noteOn _ _ v => v != 0
  | _ => false

/-- `MidiMessage::is_note_off` (message.rs): a `NoteOff`, or a `NoteOn`
with velocity `0`. -/
def MidiMessage.is_note_off : MidiMessage → Bool
  | .noteOff _ _ _ => true
  | .noteOn _ _ v => v == 0
  | _ => false

/-- `MidiMessage::is_meta` (message.rs). -/
def MidiMessage.is_meta : MidiMessage → Bool
  | .meta _ => true
  | _ => false

/-- `MidiMessage::to_bytes` (message.rs).  `0x80 | channel = 0x80 + channel`
for a 4-bit channel; `value & 0x7F = value % 128`, `(value >> 7) as u8 =
value / 128 % 256`; SysEx is `0xF0, payload, 0xF7`. -/
def MidiMessage.to_bytes : MidiMessage → List Nat
  | .noteOff ch k v => [0x80 + ch, k, v]
  | .noteOn ch k v => [0x90 + ch, k, v]
  | .polyPressure ch k p => [0xA0 + ch, k, p]
  | .controlChange ch c v => [0xB0 + ch, c, v]
  | .programChange ch p => [0xC0 + ch, p]
  | .channelPressure ch p => [0xD0 + ch, p]
  | .pitchBend ch v => [0xE0 + ch, v % 128, v / 128 % 256]
  | .sysEx data => 0xF0 :: (data ++ [0xF7])
  | .mtcQuarterFrame d => [0xF1, d]
  | .songPosition pos => [0xF2, pos % 128, pos / 128 % 256]
  | .songSelect song => [0xF3, song]
  | .tuneRequest => [0xF6]
  | .timingClock => [0xF8]
  | .start => [0xFA]
  | .cont => [0xFB]
  | .stop => [0xFC]
  | .activeSensing => [0xFE]
  | .systemReset => [0xFF]
  | .meta m => m.to_bytes

/-- `MidiMessage::from_bytes` (message.rs).  The outer `match status & 0xF0`
is dispatch on the high nibble `status / 16` (for a `u8` status);
`status & 0x0F = status % 16`.  The length guards `data.len() >= k`
are the list patterns.  Pitch bend and song position reassemble
`data[1] | (data[2] << 7) = lo + hi * 128` (7-bit data bytes).
SysEx scans the whole slice for the first `0xF7`. -/
def MidiMessage.from_bytes (data : List Nat) : Option (MidiMessage × Nat) :=
  match data with
  | [] => none
  | status :: rest =>
    let channel := status % 16
    match status / 16 with
    | 8 => match rest with | k :: v :: _ => some (.noteOff channel k v, 3) | _ => none
    | 9 => match rest with | k :: v :: _ => some (.noteOn channel k v, 3) | _ => none
    | 10 => match rest with | k :: p :: _ => some (.polyPressure channel k p, 3) | _ => none
    | 11 => match rest with | c :: v :: _ => some (.controlChange channel c v, 3) | _ => none
    | 12 => match rest with | p :: _ => some (.programChange channel p, 2) | _ => none
    | 13 => match rest with | p :: _ => some (.channelPressure channel p, 2) | _ => none
    | 14 => match rest with | l :: h :: _ => some (.pitchBend channel (l + h * 128), 3) | _ => none
    | 15 =>
      if status = 0xF0 then
        match data.findIdx? (fun b => b == 0xF7) with
        | some endPos => some (.sysEx ((data.drop 1).take (endPos - 1)), endPos + 1)
        | none => none
      else if status = 0xF1 then
        match rest with | d :: _ => some (.mtcQuarterFrame d, 2) | _ => none
      else if status = 0xF2 then
        match rest with | l :: h :: _ => some (.songPosition (l + h * 128), 3) | _ => none
      else if status = 0xF3 then
        match rest with | s :: _ => some (.songSelect s, 2) | _ => none
      else if status = 0xF6 then some (.tuneRequest, 1)
      else if status = 0xF8 then some (.timingClock, 1)
      else if status = 0xFA then some (.start, 1)
      else if status = 0xFB then some (.cont, 1)
      else if status = 0xFC then some (.stop, 1)
      else if status = 0xFE then some (.activeSensing, 1)
      else if status = 0xFF then
        match rest with
        | t :: _ =>
          if t < 128 then (MetaEvent.from_bytes rest).map (fun m => (.meta m.1, m.2 + 1))
          else some (.systemReset, 1)
        | [] => some (.systemReset, 1)
      else none
    | _ => none

/-! ## Events (src/midi/event.rs) -/

/-- `MidiEvent` from event.rs.  `seconds : Option<f64>` is modelled over `ℚ`. -/
structure MidiEvent : Type where
  tick : Nat
  message : MidiMessage
  track : Nat
  seconds : Option ℚ
  seq : Nat
  linked_event : Option Nat
deriving DecidableEq

/-- `MidiEvent::new` (event.rs). -/
def MidiEvent.new (tick : Nat) (message : MidiMessage) : MidiEvent :=
  { tick := tick, message := message, track := 0, seconds := none, seq := 0,
    linked_event := none }

/-- `MidiEvent::set_tick`. -/
def MidiEvent.set_tick (e : MidiEvent) (tick : Nat) : MidiEvent := { e with tick := tick }

/-- `MidiEvent::set_seq`. -/
def MidiEvent.set_seq (e : MidiEvent) (seq : Nat) : MidiEvent := { e with seq := seq }

/-- `MidiEvent::set_linked_event`. -/
def MidiEvent.set_linked_event (e : MidiEvent) (idx : Option Nat) : MidiEvent :=
  { e with linked_event := idx }

/-- `MidiEvent::key` (event.rs): the key of a `NoteOn`/`NoteOff` message. -/
def MidiEvent.key (e : MidiEvent) : Option Nat :=
  match e.message with
  | .noteOn _ k _ => some k
  | .noteOff _ k _ => some k
  | _ => none

/-- `MidiEvent::channel` delegates to the message. -/
def MidiEvent.channel (e : MidiEvent) : Option Nat := e.message.channel

/-- `MidiEvent::note_on` convenience constructor. -/
def MidiEvent.note_on (tick channel key velocity : Nat) : MidiEvent :=
  MidiEvent.new tick (MidiMessage.note_on channel key velocity)

/-- `MidiEvent::note_off` convenience constructor. -/
def MidiEvent.note_off (tick channel key velocity : Nat) : MidiEvent :=
  MidiEvent.new tick (MidiMessage.note_off channel key velocity)

/-- `MidiEvent::control_change` convenience constructor. -/
def MidiEvent.control_change (tick channel controller value : Nat) : MidiEvent :=
  MidiEvent.new tick (MidiMessage.control_change channel controller value)

/-- `MidiEvent::program_change` convenience constructor. -/
def MidiEvent.program_change (tick channel program : Nat) : MidiEvent :=
  MidiEvent.new tick (MidiMessage.program_change channel program)

/-- `event_priority` (event.rs): the tie-break priority of a message type at
equal tick.  The match arms are in source order, so `NoteOn` with velocity 0
hits the priority-1 arm before the general `NoteOn` arm. -/
def event_priority : MidiMessage → Nat
  | .meta _ => 0
  | .noteOff _ _ _ => 1
  | .noteOn _ _ 0 => 1
  | .programChange _ _ => 2
  | .controlChange _ _ _ => 3
  | .noteOn _ _ _ => 4
  | _ => 5

/-- `Ord for MidiEvent` (event.rs): tick, then `event_priority`, then `seq`. -/
def eventCmp (a b : MidiEvent) : Ordering :=
  match compare a.tick b.tick with
  | .eq =>
    match compare (event_priority a.message) (event_priority b.message) with
    | .eq => compare a.seq b.seq
    | ord => ord
  | ord => ord

/-- The boolean `≤` induced by `Ord for MidiEvent`, as used by `Vec::sort`. -/
def eventLe (a b : MidiEvent) : Bool := eventCmp a b ≠ .gt

/-! ## Tracks (src/midi/track.rs) -/

/-- `MidiTrack` from track.rs. -/
structure MidiTrack : Type where
  events : List MidiEvent
  name : Option (List Nat)
  absolute_time : Bool
  sorted : Bool
deriving DecidableEq

/-- `MidiTrack::new`. -/
def MidiTrack.new : MidiTrack :=
  { events := [], name := none, absolute_time := true, sorted := true }

/-- `MidiTrack::add_event` (track.rs): O(1) push; if the track was flagged
sorted and had at least one prior event, the flag is cleared exactly when the
new tick is strictly below the previous tail tick. -/
def MidiTrack.add_event (t : MidiTrack) (e : MidiEvent) : MidiTrack :=
  let sorted' :=
    if t.sorted then
      match t.events.getLast? with
      | some prev => if e.tick < prev.tick then false else true
      | none => true
    else false
  { t with events := t.events ++ [e], sorted := sorted' }

/-- `MidiTrack::insert_event` (track.rs): insert at `index`, clear `sorted`.
`Vec::insert` with `index > len` would panic; `List.insertIdx` appends in
that case, which no claim exercises. -/
def MidiTrack.insert_event (t : MidiTrack) (index : Nat) (e : MidiEvent) : MidiTrack :=
  { t with events := t.events.insertIdx index e, sorted := false }

/-- `MidiTrack::remove_event` (track.rs): remove at `index` if in bounds.
The returned element is dropped here; only the track state matters. -/
def MidiTrack.remove_event (t : MidiTrack) (index : Nat) : MidiTrack :=
  if index < t.events.length then { t with events := t.events.eraseIdx index } else t

/-- `MidiTrack::clear` (track.rs). -/
def MidiTrack.clear (t : MidiTrack) : MidiTrack :=
  { t with events := [], sorted := true }

/-- The seq-assignment pass of `MidiTrack::sort` (track.rs):
`event.set_seq(i as u32)` for each index `i`. -/
def seqAssign (es : List MidiEvent) : List MidiEvent :=
  es.enum.map (fun p => p.2.set_seq (p.1 % 2 ^ 32))

/-- `MidiTrack::sort` (track.rs): when not flagged sorted, assign sequence
numbers by position and stable-sort by the `Ord` instance. -/
def MidiTrack.sort (t : MidiTrack) : MidiTrack :=
  if t.sorted then t
  else { t with events := (seqAssign t.events).mergeSort eventLe, sorted := true }

/-- `MidiTrack::last_tick` (track.rs). -/
def MidiTrack.last_tick (t : MidiTrack) : Nat :=
  match t.events.getLast? with
  | some e => e.tick
  | none => 0

/-- The loop of `MidiTrack::make_absolute_times` (track.rs):
`current_tick += event.tick(); event.set_tick(current_tick)`. -/
def absLoop : Nat → List MidiEvent → List MidiEvent
  | _, [] => []
  | current, e :: es =>
    let current' := current + e.tick
    e.set_tick current' :: absLoop current' es

/-- `MidiTrack::make_absolute_times` (track.rs). -/
def MidiTrack.make_absolute_times (t : MidiTrack) : MidiTrack :=
  if t.absolute_time then t
  else { t with events := absLoop 0 t.events, absolute_time := true }

/-- The loop of `MidiTrack::make_delta_times` (track.rs):
`event.set_tick(abs_tick - prev_tick); prev_tick = abs_tick`.  The `u64`
subtraction is modelled by truncated `Nat` subtraction; on a sorted track
(the only state the source reaches, having just called `sort`) the
difference never underflows. -/
def deltaLoop : Nat → List MidiEvent → List MidiEvent
  | _, [] => []
  | prev, e :: es => e.set_tick (e.tick - prev) :: deltaLoop e.tick es

/-- `MidiTrack::make_delta_times` (track.rs): sorts first, then replaces
ticks by successive differences. -/
def MidiTrack.make_delta_times (t : MidiTrack) : MidiTrack :=
  if t.absolute_time then
    let t' := t.sort
    { t' with events := deltaLoop 0 t'.events, absolute_time := false }
  else t

/-- The `(channel as usize) * 128 + (key as usize)` queue index of
`MidiTrack::link_note_events`, defined when `event.channel()` and
`event.key()` are both `Some`, i.e. exactly for note messages. -/
def noteIdx (m : MidiMessage) : Option Nat :=
  match m with
  | .noteOn ch k _ => some (ch * 128 + k)
  | .noteOff ch k _ => some (ch * 128 + k)
  | _ => none

/-- One iteration of the `link_note_events` scan (track.rs), acting on the
event buffer and the per-(channel,key) queues (`active_notes`, a function
from queue index to pending note-on indices).  A note-on pushes its index; a
note-off pops the oldest pending index, if any, and links both directions in
place. -/
def linkStep (st : List MidiEvent × (Nat → List Nat)) (i : Nat) :
    List MidiEvent × (Nat → List Nat) :=
  match st.1[i]? with
  | none => st
  | some e =>
    match noteIdx e.message with
    | none => st
    | some idx =>
      if e.message.is_note_on then
        (st.1, fun j => if j = idx then st.2 idx ++ [i] else st.2 j)
      else if e.message.is_note_off then
        match st.2 idx with
        | [] => st
        | on_idx :: qrest =>
          let evs := (st.1.modify (fun ev => ev.set_linked_event (some i)) on_idx).modify
            (fun ev => ev.set_linked_event (some on_idx)) i
          (evs, fun j => if j = idx then qrest else st.2 j)
      else st

/-- `MidiTrack::link_note_events` (track.rs): sort, then run the linking
scan over all indices with initially empty queues. -/
def MidiTrack.link_note_events (t : MidiTrack) : MidiTrack :=
  let t' := t.sort
  let result := (List.range t'.events.length).foldl linkStep (t'.events, fun _ => [])
  { t' with events := result.1 }

/-- `MidiTrack::unlink_note_events` (track.rs). -/
def MidiTrack.unlink_note_events (t : MidiTrack) : MidiTrack :=
  { t with events := t.events.map (fun e => e.set_linked_event none) }

/-- `MidiTrack::add_note` (track.rs): append a pre-linked on/off pair and
clear `sorted`. -/
def MidiTrack.add_note (t : MidiTrack) (start_tick duration channel key velocity : Nat) :
    MidiTrack :=
  let on_idx := t.events.length
  let on_event := (MidiEvent.note_on start_tick channel key velocity).set_linked_event
    (some (on_idx + 1))
  let off_event := (MidiEvent.note_off (start_tick + duration) channel key 0).set_linked_event
    (some on_idx)
  { t with events := t.events ++ [on_event, off_event], sorted := false }

/-- `MidiTrack::add_control_change` (track.rs). -/
def MidiTrack.add_control_change (t : MidiTrack) (tick channel controller value : Nat) :
    MidiTrack :=
  t.add_event (MidiEvent.control_change tick channel controller value)

/-- `MidiTrack::add_program_change` (track.rs). -/
def MidiTrack.add_program_change (t : MidiTrack) (tick channel program : Nat) : MidiTrack :=
  t.add_event (MidiEvent.program_change tick channel program)

/-- `MidiTrack::add_tempo` (track.rs) takes a `f64` BPM and converts it with
`MetaEvent::tempo_from_bpm`; the microsecond value is taken as a parameter
here, since only the shape of the appended event matters to the claims. -/
def MidiTrack.add_tempo_us (t : MidiTrack) (tick us : Nat) : MidiTrack :=
  t.add_event (MidiEvent.new tick (.meta (.tempo us)))

/-- `MetaEvent::time_signature` (message.rs): the `f64` `log2` truncated to
`u8` agrees with `Nat.log2` on every `u8` denominator. -/
def MetaEvent.time_signature (numerator denominator : Nat) : MetaEvent :=
  .timeSignature numerator (Nat.log2 denominator) 24 8

/-- `MidiTrack::add_time_signature` (track.rs). -/
def MidiTrack.add_time_signature (t : MidiTrack) (tick numerator denominator : Nat) :
    MidiTrack :=
  t.add_event (MidiEvent.new tick (.meta (MetaEvent.time_signature numerator denominator)))

/-- `MidiTrack::add_key_signature` (track.rs). -/
def MidiTrack.add_key_signature (t : MidiTrack) (tick : Nat) (sharps : Int) (minor : Bool) :
    MidiTrack :=
  t.add_event (MidiEvent.new tick (.meta (.keySignature sharps minor)))

/-- `MidiTrack::add_end_of_track` (track.rs). -/
def MidiTrack.add_end_of_track (t : MidiTrack) : MidiTrack :=
  t.add_event (MidiEvent.new t.last_tick (.meta .endOfTrack))

/-- `MidiTrack::ensure_end_of_track` (track.rs). -/
def MidiTrack.ensure_end_of_track (t : MidiTrack) : MidiTrack :=
  if t.events.any (fun e => e.message == .meta .endOfTrack) then t else t.add_end_of_track

/-- `MidiTrack::merge` (track.rs): `add_event` every event of the other
track, then clear `sorted`. -/
def MidiTrack.merge (t other : MidiTrack) : MidiTrack :=
  let t' := other.events.foldl MidiTrack.add_event t
  { t' with sorted := false }

/-! ## Files (src/midi/mod.rs and src/midi/file.rs) -/

/-- `MidiFormat` (mod.rs). -/
inductive MidiFormat : Type where
  | singleTrack
  | multiTrack
  | multiSequence
deriving DecidableEq

/-- `MidiError` (mod.rs).  The `Io` variant only arises from disk I/O and is
not reachable from `from_bytes`, so it is omitted here. -/
inductive MidiError : Type where
  | invalidHeader
  | invalidTrackHeader
  | invalidFormat (v : Nat)
  | unexpectedEof
  | invalidVarLen
  | invalidStatus (s : Nat)
  | invalidMetaEvent (t : Nat)
  | invalidRunningStatus
  | trackOutOfBounds (i : Nat)
deriving DecidableEq

/-- `TryFrom<u16> for MidiFormat` (mod.rs). -/
def MidiFormat.try_from (v : Nat) : Except MidiError MidiFormat :=
  match v with
  | 0 => .ok .singleTrack
  | 1 => .ok .multiTrack
  | 2 => .ok .multiSequence
  | _ => .error (.invalidFormat v)

/-- `TimeMap` (file.rs): breakpoints `(tick, seconds at that tick,
microseconds per quarter)`, with `f64` seconds over `ℚ`. -/
structure TimeMap : Type where
  points : List (Nat × ℚ × Nat)
  ticks_per_quarter : Nat
deriving DecidableEq

/-- The accumulation loop of `TimeMap::new` (file.rs): each tempo event
extends the cumulative seconds by `tick_delta * prev_tempo / 1e6 / tpq`. -/
def timeMapNewGo (tpq : Nat) : List (Nat × Nat) → Nat → ℚ → Nat → List (Nat × ℚ × Nat)
  | [], _, _, _ => []
  | (tick, tempo) :: rest, prev_tick, current_seconds, prev_tempo =>
    let seconds_per_tick : ℚ := (prev_tempo : ℚ) / 1000000 / (tpq : ℚ)
    let current' := current_seconds + ((tick - prev_tick : Nat) : ℚ) * seconds_per_tick
    (tick, current', tempo) :: timeMapNewGo tpq rest tick current' tempo

/-- `TimeMap::new` (file.rs). -/
def TimeMap.new (tempo_events : List (Nat × Nat)) (ticks_per_quarter : Nat) : TimeMap :=
  { points := timeMapNewGo ticks_per_quarter tempo_events 0 0 500000,
    ticks_per_quarter := ticks_per_quarter }

/-- The breakpoint-search loop of `TimeMap::ticks_to_seconds` (file.rs):
walk the points in order, keeping the last one with `point_tick ≤ ticks`. -/
def tmScan : List (Nat × ℚ × Nat) → Nat → Nat × ℚ × Nat → Nat × ℚ × Nat
  | [], _, st => st
  | (pt, ps, ptempo) :: rest, ticks, st =>
    if ticks < pt then st else tmScan rest ticks (pt, ps, ptempo)

/-- `TimeMap::ticks_to_seconds` (file.rs): empty points fall back to 120 BPM
(`0.5 / tpq` seconds per tick); otherwise interpolate from the latest
breakpoint at or before `ticks`. -/
def TimeMap.ticks_to_seconds (tm : TimeMap) (ticks : Nat) : ℚ :=
  if tm.points = [] then
    (ticks : ℚ) * ((1 / 2) / (tm.ticks_per_quarter : ℚ))
  else
    let base := tmScan tm.points ticks (0, 0, 500000)
    let tick_delta := ticks - base.1
    let seconds_per_tick : ℚ := (base.2.2 : ℚ) / 1000000 / (tm.ticks_per_quarter : ℚ)
    base.2.1 + (tick_delta : ℚ) * seconds_per_tick

/-- `MidiFile` (file.rs). -/
structure MidiFile : Type where
  format : MidiFormat
  ticks_per_quarter : Nat
  tracks : List MidiTrack
  time_map : Option TimeMap
deriving DecidableEq

/-- `MidiFile::new` (file.rs). -/
def MidiFile.new : MidiFile :=
  { format := .multiTrack, ticks_per_quarter := 480, tracks := [], time_map := none }

/-- `read_u16_be` (file.rs), reading at offset `i`:
`(data[i] << 8) | data[i+1] = data[i] * 256 + data[i+1]` for byte values.
Out-of-range reads (which panic in Rust and are never reached at the guarded
call sites) default to 0. -/
def read_u16_be (data : List Nat) (i : Nat) : Nat :=
  data.getD i 0 * 256 + data.getD (i + 1) 0

/-- `read_u32_be` (file.rs), reading at offset `i`. -/
def read_u32_be (data : List Nat) (i : Nat) : Nat :=
  data.getD i 0 * 16777216 + data.getD (i + 1) 0 * 65536 + data.getD (i + 2) 0 * 256 +
    data.getD (i + 3) 0

/-- `read_varlen` (file.rs): textually the same algorithm as
`MetaEvent::decode_varlen`. -/
def read_varlen (data : List Nat) : Option (Nat × Nat) :=
  readVarlenGo (data.take 4) 0 0

/-- `write_varlen` (file.rs): `0` is special-cased to `[0]`; otherwise push
the low chunk, run the continuation loop, reverse (the same loop as
`MetaEvent::encode_varlen`). -/
def write_varlen (v : Nat) : List Nat :=
  if v = 0 then [0] else (v % 128 :: varlenLoop 4 (v / 128)).reverse

/-- One step outcome of the `parse_track` decode loop: either a typed error,
a panic (`none`, from the unguarded SysEx payload slice), or the updated
loop state. -/
def parse_track_step (rest : List Nat) (running_status : Option Nat) (current_tick : Nat)
    (track : MidiTrack) :
    Option (Except MidiError (Option (List Nat × Option Nat × Nat × MidiTrack))) :=
  match read_varlen rest with
  | none => some (.error .invalidVarLen)
  | some (delta, delta_len) =>
    let rest := rest.drop delta_len
    let current_tick := current_tick + delta
    match rest with
    | [] => some (.ok none)
    | status :: after =>
      if status = 0xFF then
        match after with
        | [] => some (.error .unexpectedEof)
        | _ :: _ =>
          match MetaEvent.from_bytes after with
          | none => some (.error .unexpectedEof)
          | some (meta, meta_len) =>
            let track := track.add_event (MidiEvent.new current_tick (.meta meta))
            some (.ok (some (after.drop meta_len, none, current_tick, track)))
      else if status = 0xF0 ∨ status = 0xF7 then
        match read_varlen after with
        | none => some (.error .invalidVarLen)
        | some (length, len_bytes) =>
          let rest2 := after.drop len_bytes
          if rest2.length < length then
            none
          else
            let sysex_data := rest2.take length
            let track := track.add_event (MidiEvent.new current_tick (.sysEx sysex_data))
            some (.ok (some (rest2.drop length, none, current_tick, track)))
      else
        match
          if 128 ≤ status then some (status, after, some status)
          else match running_status with
            | some rs => some (rs, status :: after, running_status)
            | none => none
        with
        | none => some (.error .invalidRunningStatus)
        | some (actual_status, dataBytes, running') =>
          let channel := actual_status % 16
          match actual_status / 16 with
          | 8 =>
            match dataBytes with
            | d0 :: d1 :: rest' =>
              let track := track.add_event
                (MidiEvent.new current_tick (.noteOff channel d0 d1))
              some (.ok (some (rest', running', current_tick, track)))
            | _ => some (.error .unexpectedEof)
          | 9 =>
            match dataBytes with
            | d0 :: d1 :: rest' =>
              let track := track.add_event
                (MidiEvent.new current_tick (.noteOn channel d0 d1))
              some (.ok (some (rest', running', current_tick, track)))
            | _ => some (.error .unexpectedEof)
          | 10 =>
            match dataBytes with
            | d0 :: d1 :: rest' =>
              let track := track.add_event
                (MidiEvent.new current_tick (.polyPressure channel d0 d1))
              some (.ok (some (rest', running', current_tick, track)))
            | _ => some (.error .unexpectedEof)
          | 11 =>
            match dataBytes with
            | d0 :: d1 :: rest' =>
              let track := track.add_event
                (MidiEvent.new current_tick (.controlChange channel d0 d1))
              some (.ok (some (rest', running', current_tick, track)))
            | _ => some (.error .unexpectedEof)
          | 12 =>
            match dataBytes with
            | d0 :: rest' =>
              let track := track.add_event
                (MidiEvent.new current_tick (.programChange channel d0))
              some (.ok (some (rest', running', current_tick, track)))
            | _ => some (.error .unexpectedEof)
          | 13 =>
            match dataBytes with
            | d0 :: rest' =>
              let track := track.add_event
                (MidiEvent.new current_tick (.channelPressure channel d0))
              some (.ok (some (rest', running', current_tick, track)))
            | _ => some (.error .unexpectedEof)
          | 14 =>
            match dataBytes with
            | d0 :: d1 :: rest' =>
              let track := track.add_event
                (MidiEvent.new current_tick (.pitchBend channel (d0 + d1 * 128)))
              some (.ok (some (rest', running', current_tick, track)))
            | _ => some (.error .unexpectedEof)
          | _ => some (.error (.invalidStatus actual_status))

/-- The `while pos < data.len()` loop of `parse_track` (file.rs), driven on
the remaining byte suffix (every access in the source is at offset `pos` or
later, so the loop state is the suffix `data[pos..]`, the running status,
the tick accumulator and the track built so far).  Each iteration consumes
at least the one delta-time byte, so `fuel = remaining length + 1` never
runs out; the fuel-exhaustion branch (unreachable) returns the panic
marker. -/
def parseTrackGo : Nat → List Nat → Option Nat → Nat → MidiTrack →
    Option (Except MidiError MidiTrack)
  | 0, _, _, _, _ => none
  | _ + 1, [], _, _, track => some (.ok track)
  | fuel + 1, rest, running_status, current_tick, track =>
    match parse_track_step rest running_status current_tick track with
    | none => none
    | some (.error e) => some (.error e)
    | some (.ok none) => some (.ok track)
    | some (.ok (some (rest', running', tick', track'))) =>
      parseTrackGo fuel rest' running' tick' track'

/-- `parse_track` (file.rs). -/
def parse_track (data : List Nat) : Option (Except MidiError MidiTrack) :=
  parseTrackGo (data.length + 1) data none 0 MidiTrack.new

/-- The `while pos < data.len() && tracks.len() < num_tracks` chunk loop of
`MidiFile::from_bytes` (file.rs).  Each iteration appends exactly one track,
so the guard `tracks.len() < num_tracks` is the `remaining` counter.  A
truncated chunk header (`pos + 8 > data.len()`) breaks out of the loop and
the tracks read so far are returned as a success. -/
def parseChunks (data : List Nat) : Nat → Nat → List MidiTrack →
    Option (Except MidiError (List MidiTrack))
  | _, 0, acc => some (.ok acc)
  | pos, remaining + 1, acc =>
    if data.length ≤ pos then some (.ok acc)
    else if data.length < pos + 8 then some (.ok acc)
    else if (data.drop pos).take 4 ≠ [0x4D, 0x54, 0x72, 0x6B] then
      some (.error .invalidTrackHeader)
    else
      let track_len := read_u32_be data (pos + 4)
      let pos' := pos + 8
      if data.length < pos' + track_len then some (.error .unexpectedEof)
      else
        match parse_track ((data.drop pos').take track_len) with
        | none => none
        | some (.error e) => some (.error e)
        | some (.ok track) => parseChunks data (pos' + track_len) remaining (acc ++ [track])

/-- `MidiFile::from_bytes` (file.rs).  `b"MThd"` is `[0x4D, 0x54, 0x68,
0x64]`.  The SMPTE branch binds two unused locals and is a no-op. -/
def MidiFile.from_bytes (data : List Nat) : Option (Except MidiError MidiFile) :=
  if data.length < 14 then some (.error .invalidHeader)
  else if data.take 4 ≠ [0x4D, 0x54, 0x68, 0x64] then some (.error .invalidHeader)
  else
    let header_len := read_u32_be data 4
    if header_len < 6 then some (.error .invalidHeader)
    else
      match MidiFormat.try_from (read_u16_be data 8) with
      | .error e => some (.error e)
      | .ok format =>
        let num_tracks := read_u16_be data 10
        let ticks_per_quarter := read_u16_be data 12
        match parseChunks data (8 + header_len) num_tracks [] with
        | none => none
        | some (.error e) => some (.error e)
        | some (.ok tracks) =>
          some (.ok { format := format, ticks_per_quarter := ticks_per_quarter,
                      tracks := tracks, time_map := none })

/-- `MidiFile::merge_tracks` (file.rs): empty files are returned unchanged;
otherwise merge every track into a fresh one, sort it, and become a
single-track (format 0) file. -/
def MidiFile.merge_tracks (f : MidiFile) : MidiFile :=
  if f.tracks = [] then f
  else
    let merged := (f.tracks.foldl MidiTrack.merge MidiTrack.new).sort
    { f with tracks := [merged], format := .singleTrack, time_map := none }

/-- The tempo-event collection of `MidiFile::build_time_map` (file.rs): all
`(tick, microseconds)` pairs of `Meta(Tempo)` events across all tracks. -/
def MidiFile.collect_tempo_events (f : MidiFile) : List (Nat × Nat) :=
  f.tracks.flatMap (fun t =>
    t.events.filterMap (fun e =>
      match e.message with
      | .meta (.tempo us) => some (e.tick, us)
      | _ => none))

/-- `MidiFile::build_time_map` (file.rs) takes `&self`: it checks the cached
map, collects and sorts the tempo events into a local vector, and then —
per its own closing comment — drops them without storing a `TimeMap`
anywhere.  Observably it is the identity on the file. -/
def MidiFile.build_time_map (f : MidiFile) : MidiFile := f

/-- `MidiFile::ticks_to_seconds` (file.rs): after `build_time_map`, use the
cached time map if present, else the 120 BPM fallback
`ticks * (0.5 / ticks_per_quarter)`. -/
def MidiFile.ticks_to_seconds (f : MidiFile) (ticks : Nat) : ℚ :=
  let f := f.build_time_map
  match f.time_map with
  | some tm => tm.ticks_to_seconds ticks
  | none => (ticks : ℚ) * ((1 / 2) / (f.ticks_per_quarter : ℚ))

/-- The piecewise tempo-map conversion the specification describes for
`ticks_to_seconds`: build a `TimeMap` (file.rs, `TimeMap::new`) from all
tempo events of the file sorted by tick — defaulting to a single 500,000
µs/quarter point at tick 0 when there are none, as in `build_time_map` —
and evaluate `TimeMap::ticks_to_seconds` on it. -/
def MidiFile.intended_ticks_to_seconds (f : MidiFile) (ticks : Nat) : ℚ :=
  let tempo_events := f.collect_tempo_events.mergeSort (fun a b => a.1 ≤ b.1)
  let tempo_events := if tempo_events = [] then [(0, 500000)] else tempo_events
  (TimeMap.new tempo_events f.ticks_per_quarter).ticks_to_seconds ticks

/-! ## Concrete inputs used by the claim theorems -/

/-- A track whose only event is a Tempo meta event of 1,000,000 µs/quarter
(60 BPM) at tick 0. -/
def c1Track : MidiTrack := MidiTrack.new.add_event (MidiEvent.new 0 (.meta (.tempo 1000000)))

/-- A freshly parsed-shape file at 480 ticks/quarter whose single track
holds one 60 BPM tempo event; `time_map` is `None` exactly as `from_bytes`
and every constructor leave it. -/
def c1File : MidiFile :=
  { format := .multiTrack, ticks_per_quarter := 480, tracks := [c1Track], time_map := none }

/-- A 14-byte input that is exactly a valid `MThd` header announcing one
track (format 1, 480 ticks/quarter), with no track bytes after it. -/
def c2HeaderOnly : List Nat :=
  [0x4D, 0x54, 0x68, 0x64, 0, 0, 0, 6, 0, 1, 0, 1, 0x01, 0xE0]

/-- The same header followed by a chunk whose magic is `b"XTrk"`. -/
def c2BadMagic : List Nat :=
  c2HeaderOnly ++ [0x58, 0x54, 0x72, 0x6B, 0, 0, 0, 0]

/-- The same header followed by an `MTrk` chunk declaring 4 body bytes but
providing only 2. -/
def c2ShortBody : List Nat :=
  c2HeaderOnly ++ [0x4D, 0x54, 0x72, 0x6B, 0, 0, 0, 4, 0, 0]

/-- A semantically valid minimal input: header announcing zero tracks. -/
def c2ZeroTracks : List Nat :=
  [0x4D, 0x54, 0x68, 0x64, 0, 0, 0, 6, 0, 1, 0, 0, 0x01, 0xE0]

/-- A track built by `add_event` of a NoteOn at tick 0 and then a NoteOff
at the same tick 0. -/
def c3Track : MidiTrack :=
  (MidiTrack.new.add_event (MidiEvent.note_on 0 0 60 100)).add_event
    (MidiEvent.note_off 0 0 60 0)

/-- The message is a `ProgramChange`. -/
def isProgramChangeMsg : MidiMessage → Prop
  | .programChange _ _ => True
  | _ => False

/-- The message is a `ControlChange`. -/
def isControlChangeMsg : MidiMessage → Prop
  | .controlChange _ _ _ => True
  | _ => False

/-- The "everything else" class of the priority table: not a meta event,
note-on, note-off, program change or control change. -/
def isOtherMsg : MidiMessage → Prop
  | .polyPressure _ _ _ => True
  | .channelPressure _ _ => True
  | .pitchBend _ _ => True
  | .sysEx _ => True
  | .mtcQuarterFrame _ => True
  | .songPosition _ => True
  | .songSelect _ => True
  | .tuneRequest => True
  | .timingClock => True
  | .start => True
  | .cont => True
  | .stop => True
  | .activeSensing => True
  | .systemReset => True
  | _ => False

/-- `MidiTrack::events_mut` clears the `sorted` flag and hands out `&mut
Vec<MidiEvent>`; an arbitrary mutation through it is modelled as replacing
the buffer by an arbitrary list. -/
def MidiTrack.events_mut_set (t : MidiTrack) (es : List MidiEvent) : MidiTrack :=
  { t with events := es, sorted := false }

/-- The structural mutations of `MidiTrack` reachable through its public
API (track.rs), one constructor per method.  `addTempoUs` carries the
microsecond value computed by `tempo_from_bpm`; `mergeWith` carries the
other track; `eventsMut` carries the buffer contents written through the
`events_mut` borrow. -/
inductive TrackOp : Type where
  | addEvent (e : MidiEvent)
  | insertEvent (index : Nat) (e : MidiEvent)
  | removeEvent (index : Nat)
  | clearEvents
  | sortEvents
  | makeAbsoluteTimes
  | makeDeltaTimes
  | linkNoteEvents
  | unlinkNoteEvents
  | addNote (start_tick duration channel key velocity : Nat)
  | addControlChange (tick channel controller value : Nat)
  | addProgramChange (tick channel program : Nat)
  | addTempoUs (tick us : Nat)
  | addTimeSignature (tick numerator denominator : Nat)
  | addKeySignature (tick : Nat) (sharps : Int) (minor : Bool)
  | addEndOfTrack
  | ensureEndOfTrack
  | mergeWith (other : MidiTrack)
  | eventsMut (es : List MidiEvent)

/-- Apply one public mutation to a track. -/
def applyOp (t : MidiTrack) : TrackOp → MidiTrack
  | .addEvent e => t.add_event e
  | .insertEvent i e => t.insert_event i e
  | .removeEvent i => t.remove_event i
  | .clearEvents => t.clear
  | .sortEvents => t.sort
  | .makeAbsoluteTimes => t.make_absolute_times
  | .makeDeltaTimes => t.make_delta_times
  | .linkNoteEvents => t.link_note_events
  | .unlinkNoteEvents => t.unlink_note_events
  | .addNote s d ch k v => t.add_note s d ch k v
  | .addControlChange tk ch c v => t.add_control_change tk ch c v
  | .addProgramChange tk ch p => t.add_program_change tk ch p
  | .addTempoUs tk us => t.add_tempo_us tk us
  | .addTimeSignature tk n d => t.add_time_signature tk n d
  | .addKeySignature tk s m => t.add_key_signature tk s m
  | .addEndOfTrack => t.add_end_of_track
  | .ensureEndOfTrack => t.ensure_end_of_track
  | .mergeWith other => t.merge other
  | .eventsMut es => t.events_mut_set es

/-- The invariant that actually holds of reachable tracks: in absolute-time
mode, a set `sorted` flag guarantees the ticks are non-decreasing (the full
§4.2 order may still be violated at equal ticks). -/
def TickSorted (t : MidiTrack) : Prop :=
  t.absolute_time = true → t.sorted = true →
    List.Chain' (· ≤ ·) (t.events.map MidiEvent.tick)

/-- A sorted-flag-true absolute-time track: NoteOn at tick 0 then NoteOff
at tick 480, appended with `add_event`. -/
def c7Track : MidiTrack :=
  (MidiTrack.new.add_event (MidiEvent.note_on 0 0 60 100)).add_event
    (MidiEvent.note_off 480 0 60 0)

/-- The meta type bytes that `MetaEvent::from_bytes` recognizes with a
dedicated arm. -/
def knownMetaTypes : List Nat :=
  [0x00, 0x01, 0x02, 0x03, 0x04, 0x05, 0x06, 0x07, 0x08, 0x09,
   0x20, 0x21, 0x2F, 0x51, 0x54, 0x58, 0x59, 0x7F]

/-- Well-formedness of a `MetaEvent` value: every field within the range its
wire encoding can carry (`u16` sequence number, 24-bit tempo, `i8` key
signature, byte-valued fields below 256, payloads below the 4-byte varlen
limit), and `Unknown` only with an unrecognized 7-bit type byte — the
ranges the parser itself produces. -/
def MetaEvent.wf : MetaEvent → Prop
  | .sequenceNumber n => n < 65536
  | .text s => s.length < 2 ^ 28 ∧ ∀ b ∈ s, b < 256
  | .copyright s => s.length < 2 ^ 28 ∧ ∀ b ∈ s, b < 256
  | .trackName s => s.length < 2 ^ 28 ∧ ∀ b ∈ s, b < 256
  | .instrumentName s => s.length < 2 ^ 28 ∧ ∀ b ∈ s, b < 256
  | .lyric s => s.length < 2 ^ 28 ∧ ∀ b ∈ s, b < 256
  | .marker s => s.length < 2 ^ 28 ∧ ∀ b ∈ s, b < 256
  | .cuePoint s => s.length < 2 ^ 28 ∧ ∀ b ∈ s, b < 256
  | .programName s => s.length < 2 ^ 28 ∧ ∀ b ∈ s, b < 256
  | .deviceName s => s.length < 2 ^ 28 ∧ ∀ b ∈ s, b < 256
  | .channelPfx ch => ch < 256
  | .midiPort port => port < 256
  | .endOfTrack => True
  | .tempo us => us < 2 ^ 24
  | .smpteOffset h m s f sf => h < 256 ∧ m < 256 ∧ s < 256 ∧ f < 256 ∧ sf < 256
  | .timeSignature n d c t => n < 256 ∧ d < 256 ∧ c < 256 ∧ t < 256
  | .keySignature s _ => -128 ≤ s ∧ s < 128
  | .sequencerSpecific d => d.length < 2 ^ 28 ∧ ∀ b ∈ d, b < 256
  | .unknown t d => t < 128 ∧ t ∉ knownMetaTypes ∧ d.length < 2 ^ 28 ∧ ∀ b ∈ d, b < 256

/-- Well-formedness of a `MidiMessage` value: 4-bit channels, 7-bit data
fields (the ranges the masking constructors produce), 14-bit pitch-bend and
song-position values, 7-bit SysEx payload bytes, and a well-formed meta
event. -/
def MidiMessage.wf : MidiMessage → Prop
  | .noteOff ch k v => ch < 16 ∧ k < 128 ∧ v < 128
  | .noteOn ch k v => ch < 16 ∧ k < 128 ∧ v < 128
  | .polyPressure ch k p => ch < 16 ∧ k < 128 ∧ p < 128
  | .controlChange ch c v => ch < 16 ∧ c < 128 ∧ v < 128
  | .programChange ch p => ch < 16 ∧ p < 128
  | .channelPressure ch p => ch < 16 ∧ p < 128
  | .pitchBend ch v => ch < 16 ∧ v < 16384
  | .sysEx d => ∀ b ∈ d, b < 128
  | .meta m => m.wf
  | .mtcQuarterFrame d => d < 256
  | .songPosition pos => pos < 16384
  | .songSelect song => song < 128
  | _ => True

/-- Classification of a message for the linking scan of
`link_note_events`: `some (idx, true)` for an attack (a note-on with
positive velocity, which the scan pushes), `some (idx, false)` for a
release (a `NoteOff`, or a `NoteOn` with velocity 0, which the scan pops),
`none` for every other message (skipped). -/
def noteKind (m : MidiMessage) : Option (Nat × Bool) :=
  match noteIdx m with
  | none => none
  | some idx =>
    if m.is_note_on then some (idx, true)
    else if m.is_note_off then some (idx, false)
    else none

/-- Specification of the pending note-on for queue index `idx` after the
scan has processed the first `k` events: the index of the latest attack of
that key in the prefix, unless a release of the key followed it. -/
def pend (es : List MidiEvent) : Nat → Nat → Option Nat
  | 0, _ => none
  | k + 1, idx =>
    match es[k]? with
    | none => pend es k idx
    | some e =>
      match noteKind e.message with
      | none => pend es k idx
      | some (idx', b) =>
        if idx' = idx then (if b then some k else none) else pend es k idx

/-- Specification of the (on-index, off-index) pairs the scan has linked
after processing the first `k` events: a pair is committed at each release
that finds a pending attack of its key. -/
def pairsUpto (es : List MidiEvent) : Nat → List (Nat × Nat)
  | 0 => []
  | k + 1 =>
    pairsUpto es k ++
      (match es[k]? with
       | none => []
       | some e =>
         match noteKind e.message with
         | some (idx, false) =>
           match pend es k idx with
           | some j => [(j, k)]
           | none => []
         | _ => [])

/-- The `linked_event` value of index `m` after the in-place link writes of
`pairs` have been applied in order over the original value `orig` (the last
write wins, as with sequential mutation). -/
def linkedVal (pairs : List (Nat × Nat)) (m : Nat) (orig : Option Nat) : Option Nat :=
  pairs.foldl
    (fun cur p => if p.1 = m then some p.2 else if p.2 = m then some p.1 else cur) orig

/-- No overlap: an attack only ever arrives for a key with no pending
attack (per (channel, key), each note-on is released before the next
note-on of that key). -/
def NoOverlap (es : List MidiEvent) : Prop :=
  ∀ k e idx, es[k]? = some e → noteKind e.message = some (idx, true) → pend es k idx = none

/-- All notes closed: at the end of the buffer no attack is left pending
(every note-on is followed by a matching release). -/
def AllClosed (es : List MidiEvent) : Prop :=
  ∀ idx, pend es es.length idx = none

/-- A concrete attack: note-on at tick 0, channel 0, key 60, velocity 100. -/
def c5On : MidiEvent := MidiEvent.note_on 0 0 60 100

/-- The matching release: note-off at tick 10 for the same channel and key. -/
def c5Off : MidiEvent := MidiEvent.note_off 10 0 60 0

/-- A two-event track already in sorted absolute-time form: one complete,
non-overlapping note pair on (channel 0, key 60). -/
def c5Track : MidiTrack :=
  { events := [c5On, c5Off], name := none, absolute_time := true, sorted := true }

/-! ## Helper lemmas -/

/-- The chunk loop only ever appends: a successful parse returns at most
`remaining` tracks beyond the accumulator. -/
theorem parseChunks_ok_length (data : List Nat) :
    ∀ remaining pos acc ts, parseChunks data pos remaining acc = some (.ok ts) →
      ts.length ≤ acc.length + remaining := by
  intro remaining
  induction remaining with
  | zero =>
    intro pos acc ts h
    simp only [parseChunks, Option.some.injEq, Except.ok.injEq] at h
    subst h
    omega
  | succ r ih =>
    intro pos acc ts h
    simp only [parseChunks] at h
    split at h
    · simp only [Option.some.injEq, Except.ok.injEq] at h; subst h; omega
    split at h
    · simp only [Option.some.injEq, Except.ok.injEq] at h; subst h; omega
    split at h
    · simp at h
    split at h
    · simp at h
    split at h
    · simp at h
    · simp at h
    · have := ih _ _ _ h
      simp only [List.length_append, List.length_cons, List.length_nil] at this
      omega

theorem varlenLoop_zero (fuel : Nat) : varlenLoop fuel 0 = [] := by
  cases fuel <;> rfl

theorem varlenLoop_succ (fuel v : Nat) (hv : v ≠ 0) :
    varlenLoop (fuel + 1) v = (v % 128 + 128) :: varlenLoop fuel (v / 128) := by
  cases v with
  | zero => exact absurd rfl hv
  | succ w => rfl

/-- `decode_varlen` inverts `encode_varlen` on any value fitting in four
7-bit chunks, even with trailing bytes appended, consuming exactly the
encoded length. -/
theorem decode_encode_varlen (v : Nat) (hv : v < 2 ^ 28) (rest : List Nat) :
    decode_varlen (encode_varlen v ++ rest) = some (v, (encode_varlen v).length) := by
  rcases Nat.lt_or_ge v 128 with h1 | h1
  · have hd : v / 128 = 0 := Nat.div_eq_of_lt h1
    simp [encode_varlen, hd, varlenLoop_zero, decode_varlen, readVarlenGo,
      Nat.mod_eq_of_lt h1, h1]
  rcases Nat.lt_or_ge v 16384 with h2 | h2
  · have hd1 : v / 128 ≠ 0 := by omega
    have hd2 : v / 128 / 128 = 0 := by omega
    rw [encode_varlen, varlenLoop_succ _ _ hd1, hd2, varlenLoop_zero]
    have e1 : ¬ (v / 128 % 128 + 128 < 128) := by omega
    simp only [decode_varlen, List.reverse_cons, List.reverse_nil, List.nil_append,
      List.cons_append, List.take, readVarlenGo, e1, if_false, List.length_cons,
      List.length_nil]
    have e2 : v % 128 < 128 := by omega
    simp only [e2, if_true, Option.some.injEq, Prod.mk.injEq]
    exact ⟨by omega, trivial⟩
  rcases Nat.lt_or_ge v 2097152 with h3 | h3
  · have hd1 : v / 128 ≠ 0 := by omega
    have hd2 : v / 128 / 128 ≠ 0 := by omega
    have hd3 : v / 128 / 128 / 128 = 0 := by omega
    rw [encode_varlen, varlenLoop_succ _ _ hd1, varlenLoop_succ _ _ hd2, hd3, varlenLoop_zero]
    have e1 : ¬ (v / 128 % 128 + 128 < 128) := by omega
    have e2 : ¬ (v / 128 / 128 % 128 + 128 < 128) := by omega
    simp only [decode_varlen, List.reverse_cons, List.reverse_nil, List.nil_append,
      List.cons_append, List.take, readVarlenGo, e1, e2, if_false, List.length_cons,
      List.length_nil]
    have e3 : v % 128 < 128 := by omega
    simp only [e3, if_true, Option.some.injEq, Prod.mk.injEq]
    exact ⟨by omega, trivial⟩
  · have hd1 : v / 128 ≠ 0 := by omega
    have hd2 : v / 128 / 128 ≠ 0 := by omega
    have hd3 : v / 128 / 128 / 128 ≠ 0 := by omega
    have hd4 : v / 128 / 128 / 128 / 128 = 0 := by
      have : v < 268435456 := hv
      omega
    rw [encode_varlen, varlenLoop_succ _ _ hd1, varlenLoop_succ _ _ hd2,
      varlenLoop_succ _ _ hd3, hd4, varlenLoop_zero]
    have e1 : ¬ (v / 128 % 128 + 128 < 128) := by omega
    have e2 : ¬ (v / 128 / 128 % 128 + 128 < 128) := by omega
    have e3 : ¬ (v / 128 / 128 / 128 % 128 + 128 < 128) := by omega
    simp only [decode_varlen, List.reverse_cons, List.reverse_nil, List.nil_append,
      List.cons_append, List.take, readVarlenGo, e1, e2, e3, if_false, List.length_cons,
      List.length_nil]
    have e4 : v % 128 < 128 := by omega
    simp only [e4, if_true, Option.some.injEq, Prod.mk.injEq]
    exact ⟨by omega, trivial⟩

/-- `write_varlen` agrees with `encode_varlen` (the `v = 0` special case of
the former produces the same `[0]`). -/
theorem write_varlen_eq_encode (v : Nat) : write_varlen v = encode_varlen v := by
  unfold write_varlen encode_varlen
  split
  · subst v; rfl
  · rfl

/-! ## Claim C1 -/

/-- C1: the claim states that for a file with at least one Tempo meta event,
`MidiFile::ticks_to_seconds` follows the piecewise tempo-map formula.  The
code never stores a `TimeMap` (`build_time_map` computes a local vector and
drops it), so `ticks_to_seconds` always takes the 120 BPM fallback.  At the
failing input — a 480-ticks/quarter file whose only tempo is 60 BPM
(1,000,000 µs/quarter) at tick 0 — the code returns 1/2 second for tick 480
while the claimed formula (the file's tempo events, sorted, run through
`TimeMap::new` and `TimeMap::ticks_to_seconds`) gives 1 second. -/
theorem c1_tempo_ignored_evidence :
    c1File.collect_tempo_events = [(0, 1000000)] ∧
    c1File.time_map = none ∧
    c1File.ticks_to_seconds 480 = 1 / 2 ∧
    c1File.intended_ticks_to_seconds 480 = 1 := by
  have hcollect : c1File.collect_tempo_events = [(0, 1000000)] := by
    simp [MidiFile.collect_tempo_events, c1File, c1Track, MidiTrack.add_event, MidiTrack.new,
      MidiEvent.new]
  refine ⟨hcollect, rfl, ?_, ?_⟩
  · norm_num [MidiFile.ticks_to_seconds, MidiFile.build_time_map, c1File]
  · rw [MidiFile.intended_ticks_to_seconds, hcollect]
    norm_num [TimeMap.new, timeMapNewGo, TimeMap.ticks_to_seconds, tmScan, c1File]

/-! ## Claim C2 -/

/-- C2 counterexample: a valid header announcing one track followed by no
bytes at all is parsed as `Ok` with zero tracks — a partial document with
fewer tracks than the header's count, not a typed error. -/
theorem c2_counterexample :
    read_u16_be c2HeaderOnly 10 = 1 ∧
    MidiFile.from_bytes c2HeaderOnly =
      some (.ok { format := .multiTrack, ticks_per_quarter := 480, tracks := [],
                  time_map := none }) := by
  exact ⟨rfl, rfl⟩

/-- C2 amended: `from_bytes` never returns more tracks than the header
announces, and an `MTrk` chunk that is present but malformed (wrong magic,
or a declared body running past the end of the input) aborts the parse with
a typed error; but when the input ends before the next chunk's 8-byte
header, the loop breaks and the file parsed so far — possibly with fewer
tracks than announced — is returned as `Ok`. -/
theorem c2_amended :
    (∀ data f, (∀ b ∈ data, b < 256) → MidiFile.from_bytes data = some (.ok f) →
      f.tracks.length ≤ read_u16_be data 10) ∧
    MidiFile.from_bytes c2BadMagic = some (.error .invalidTrackHeader) ∧
    MidiFile.from_bytes c2ShortBody = some (.error .unexpectedEof) := by
  refine ⟨?_, rfl, rfl⟩
  intro data f _ hok
  rw [MidiFile.from_bytes] at hok
  simp only [] at hok
  repeat' split at hok
  all_goals simp only [Option.some.injEq, Except.ok.injEq, reduceCtorEq] at hok
  rename_i tracks htracks
  subst hok
  simpa using parseChunks_ok_length data (read_u16_be data 10) (8 + read_u32_be data 4) []
    tracks htracks

/-- C2 amended, witness: at the zero-track header the universal part applies
with its hypotheses discharged on concrete input. -/
theorem c2_amended_witness :
    (∀ b ∈ c2ZeroTracks, b < 256) ∧
    MidiFile.from_bytes c2ZeroTracks =
      some (.ok { format := .multiTrack, ticks_per_quarter := 480, tracks := [],
                  time_map := none }) ∧
    ({ format := .multiTrack, ticks_per_quarter := 480, tracks := [],
       time_map := none : MidiFile }).tracks.length ≤ read_u16_be c2ZeroTracks 10 :=
  ⟨by decide, rfl, c2_amended.1 c2ZeroTracks _ (by decide) rfl⟩

/-! ## Claim C9 -/

/-- C9 counterexample: on a file with zero tracks `merge_tracks` is the
identity — the format stays multi-track (not format 0) and no single merged
track is created, though the claim as stated covers this file. -/
theorem c9_counterexample :
    MidiFile.new.merge_tracks.format ≠ MidiFormat.singleTrack ∧
    MidiFile.new.merge_tracks.tracks.length ≠ 1 := by
  exact ⟨by decide, by decide⟩

/-! ## Claim C10 -/

/-- C10: the track-body decoder is not total on malformed SysEx.  On
`[delta 0, 0xF0, varlen length 5]` (and the `0xF7` form) the declared
payload length exceeds the remaining zero bytes and the unguarded slice
`data[pos..pos + length]` panics (`none` here), while every other truncated
shape in the decode loop — truncated meta header and payload, truncated
2-byte and 1-byte channel messages of every status family, an unterminated
delta varlen, an unterminated SysEx length varlen, and a data byte with no
running status — returns a typed error value. -/
theorem c10_sysex_truncation_panics :
    parse_track [0, 0xF0, 0x05] = none ∧
    parse_track [0, 0xF7, 0x05] = none ∧
    parse_track [0, 0xF0, 0x02, 0x41] = none ∧
    parse_track [0, 0xFF] = some (.error .unexpectedEof) ∧
    parse_track [0, 0xFF, 0x51, 0x03, 0x07] = some (.error .unexpectedEof) ∧
    parse_track [0, 0x80, 60] = some (.error .unexpectedEof) ∧
    parse_track [0, 0x90, 60] = some (.error .unexpectedEof) ∧
    parse_track [0, 0xA0, 60] = some (.error .unexpectedEof) ∧
    parse_track [0, 0xB0, 60] = some (.error .unexpectedEof) ∧
    parse_track [0, 0xC0] = some (.error .unexpectedEof) ∧
    parse_track [0, 0xD0] = some (.error .unexpectedEof) ∧
    parse_track [0, 0xE0, 60] = some (.error .unexpectedEof) ∧
    parse_track [0x80, 0x80, 0x80, 0x80] = some (.error .invalidVarLen) ∧
    parse_track [0, 0xF0, 0x81] = some (.error .invalidVarLen) ∧
    parse_track [0, 0x10] = some (.error .invalidRunningStatus) := by
  exact ⟨rfl, rfl, rfl, rfl, rfl, rfl, rfl, rfl, rfl, rfl, rfl, rfl, rfl, rfl, rfl⟩

/-! ## Claim C8 -/

/-- C8: the variable-length-quantity codec round-trips for every value below
`2^28` (hence at all the 7/14/21-bit boundary values), consuming exactly the
encoded length, and concretely `write_varlen 128 = [0x81, 0x00]` with
`read_varlen [0x81, 0x00] = Some (128, 2)`. -/
theorem c8_varlen_roundtrip :
    (∀ v, v < 2 ^ 28 → read_varlen (write_varlen v) = some (v, (write_varlen v).length)) ∧
    write_varlen 128 = [0x81, 0x00] ∧
    read_varlen [0x81, 0x00] = some (128, 2) := by
  refine ⟨?_, rfl, rfl⟩
  intro v hv
  rw [write_varlen_eq_encode]
  have h := decode_encode_varlen v hv []
  rw [List.append_nil] at h
  exact h

/-- C8 witness: the roundtrip theorem applied at the boundary value 128. -/
theorem c8_varlen_roundtrip_witness :
    128 < 2 ^ 28 ∧ read_varlen (write_varlen 128) = some (128, (write_varlen 128).length) :=
  ⟨by norm_num, c8_varlen_roundtrip.1 128 (by norm_num)⟩

/-! ## Claim C6 -/

theorem event_priority_meta {m : MidiMessage} (h : m.is_meta = true) : event_priority m = 0 := by
  cases m <;> simp_all [MidiMessage.is_meta, event_priority]

theorem event_priority_release {m : MidiMessage} (h : m.is_note_off = true) :
    event_priority m = 1 := by
  cases m with
  | noteOn ch k v =>
    simp only [MidiMessage.is_note_off, beq_iff_eq] at h
    subst h
    rfl
  | noteOff ch k v => rfl
  | _ => simp_all [MidiMessage.is_note_off]

theorem event_priority_pc {m : MidiMessage} (h : isProgramChangeMsg m) :
    event_priority m = 2 := by
  cases m <;> simp_all [isProgramChangeMsg, event_priority]

theorem event_priority_cc {m : MidiMessage} (h : isControlChangeMsg m) :
    event_priority m = 3 := by
  cases m <;> simp_all [isControlChangeMsg, event_priority]

theorem event_priority_attack {m : MidiMessage} (h : m.is_note_on = true) :
    event_priority m = 4 := by
  cases m with
  | noteOn ch k v =>
    simp only [MidiMessage.is_note_on, bne_iff_ne, ne_eq] at h
    cases v with
    | zero => exact absurd rfl h
    | succ w => rfl
  | _ => simp_all [MidiMessage.is_note_on]

theorem event_priority_other {m : MidiMessage} (h : isOtherMsg m) : event_priority m = 5 := by
  cases m <;> simp_all [isOtherMsg, event_priority]

/-- At equal ticks, a strictly smaller priority forces `eventCmp` to `lt`. -/
theorem eventCmp_lt_of_priority {a b : MidiEvent} (htick : a.tick = b.tick)
    (hp : event_priority a.message < event_priority b.message) : eventCmp a b = .lt := by
  unfold eventCmp
  rw [htick, Nat.compare_eq_eq.mpr rfl, Nat.compare_eq_lt.mpr hp]

/-- C6: the `Ord` instance used for sorting realizes the priority chain at a
shared tick — Meta < release (NoteOff or NoteOn with velocity 0) <
ProgramChange < ControlChange < attack (NoteOn with velocity > 0) < every
remaining message type — and in particular a release always compares below
an attack at the same tick. -/
theorem c6_priority_chain (a b : MidiEvent) (htick : a.tick = b.tick) :
    (a.message.is_meta = true → b.message.is_note_off = true → eventCmp a b = .lt) ∧
    (a.message.is_note_off = true → isProgramChangeMsg b.message → eventCmp a b = .lt) ∧
    (isProgramChangeMsg a.message → isControlChangeMsg b.message → eventCmp a b = .lt) ∧
    (isControlChangeMsg a.message → b.message.is_note_on = true → eventCmp a b = .lt) ∧
    (a.message.is_note_on = true → isOtherMsg b.message → eventCmp a b = .lt) ∧
    (a.message.is_note_off = true → b.message.is_note_on = true → eventCmp a b = .lt) := by
  refine ⟨?_, ?_, ?_, ?_, ?_, ?_⟩ <;> intro ha hb
  · exact eventCmp_lt_of_priority htick
      (by rw [event_priority_meta ha, event_priority_release hb]; omega)
  · exact eventCmp_lt_of_priority htick
      (by rw [event_priority_release ha, event_priority_pc hb]; omega)
  · exact eventCmp_lt_of_priority htick
      (by rw [event_priority_pc ha, event_priority_cc hb]; omega)
  · exact eventCmp_lt_of_priority htick
      (by rw [event_priority_cc ha, event_priority_attack hb]; omega)
  · exact eventCmp_lt_of_priority htick
      (by rw [event_priority_attack ha, event_priority_other hb]; omega)
  · exact eventCmp_lt_of_priority htick
      (by rw [event_priority_release ha, event_priority_attack hb]; omega)

/-- C6 witness: the chain theorem applied at tick 100 to a NoteOff and a
NoteOn with velocity 100, recovering that the release sorts first. -/
theorem c6_priority_chain_witness :
    (MidiEvent.note_off 100 0 60 0).tick = (MidiEvent.note_on 100 0 60 100).tick ∧
    (MidiEvent.note_off 100 0 60 0).message.is_note_off = true ∧
    (MidiEvent.note_on 100 0 60 100).message.is_note_on = true ∧
    eventCmp (MidiEvent.note_off 100 0 60 0) (MidiEvent.note_on 100 0 60 100) = .lt :=
  ⟨rfl, rfl, rfl,
    (c6_priority_chain (MidiEvent.note_off 100 0 60 0) (MidiEvent.note_on 100 0 60 100)
      rfl).2.2.2.2.2 rfl rfl⟩

/-! ## Claim C3 -/

/-- `eventLe` unfolded to the lexicographic comparison on
(tick, priority, seq). -/
theorem eventLe_iff {a b : MidiEvent} : eventLe a b = true ↔
    (a.tick < b.tick ∨ (a.tick = b.tick ∧
      (event_priority a.message < event_priority b.message ∨
        (event_priority a.message = event_priority b.message ∧ a.seq ≤ b.seq)))) := by
  unfold eventLe eventCmp
  rcases Nat.lt_trichotomy a.tick b.tick with h | h | h
  · rw [Nat.compare_eq_lt.mpr h]
    simp [h]
  · rw [Nat.compare_eq_eq.mpr h]
    rcases Nat.lt_trichotomy (event_priority a.message) (event_priority b.message)
      with h2 | h2 | h2
    · rw [Nat.compare_eq_lt.mpr h2]
      simp [h, h2]
    · rw [Nat.compare_eq_eq.mpr h2]
      rcases Nat.lt_trichotomy a.seq b.seq with h3 | h3 | h3
      · rw [Nat.compare_eq_lt.mpr h3, decide_eq_true_iff]
        simp only [ne_eq, reduceCtorEq, not_false_eq_true, true_iff]
        omega
      · rw [Nat.compare_eq_eq.mpr h3, decide_eq_true_iff]
        simp only [ne_eq, reduceCtorEq, not_false_eq_true, true_iff]
        omega
      · rw [Nat.compare_eq_gt.mpr h3, decide_eq_true_iff]
        simp only [ne_eq, not_true, false_iff]
        omega
    · rw [Nat.compare_eq_gt.mpr h2, decide_eq_true_iff]
      simp only [ne_eq, not_true, false_iff]
      omega
  · rw [Nat.compare_eq_gt.mpr h, decide_eq_true_iff]
    simp only [ne_eq, not_true, false_iff]
    omega

theorem eventLe_trans : ∀ a b c : MidiEvent, eventLe a b → eventLe b c → eventLe a c := by
  intro a b c hab hbc
  rw [eventLe_iff] at hab hbc ⊢
  omega

theorem eventLe_total : ∀ a b : MidiEvent, eventLe a b || eventLe b a := by
  intro a b
  rw [Bool.or_eq_true, eventLe_iff, eventLe_iff]
  omega

theorem eventLe_tick {a b : MidiEvent} (h : eventLe a b = true) : a.tick ≤ b.tick := by
  rw [eventLe_iff] at h
  omega

/-- A sort by the event order leaves the tick projection non-decreasing. -/
theorem chain_tick_mergeSort (es : List MidiEvent) :
    List.Chain' (· ≤ ·) ((es.mergeSort eventLe).map MidiEvent.tick) := by
  apply List.Pairwise.chain'
  rw [List.pairwise_map]
  exact (List.sorted_mergeSort eventLe_trans eventLe_total es).imp (fun h => eventLe_tick h)

theorem map_tick_seqAssign (es : List MidiEvent) :
    (seqAssign es).map MidiEvent.tick = es.map MidiEvent.tick := by
  rw [seqAssign, List.map_map]
  have h : (MidiEvent.tick ∘ fun p : Nat × MidiEvent => p.2.set_seq (p.1 % 2 ^ 32)) =
      MidiEvent.tick ∘ Prod.snd := rfl
  rw [h, ← List.map_map, List.enum_map_snd]

theorem add_event_tickSorted {t : MidiTrack} (ht : TickSorted t) (e : MidiEvent) :
    TickSorted (t.add_event e) := by
  intro habs hsort
  by_cases hts : t.sorted = true
  · have hchain := ht habs hts
    cases hlast : t.events.getLast? with
    | none =>
      have hnil : t.events = [] := List.getLast?_eq_none_iff.mp hlast
      simp [MidiTrack.add_event, hnil]
    | some prev =>
      by_cases hlt : e.tick < prev.tick
      · exfalso
        simp [MidiTrack.add_event, hts, hlast, hlt] at hsort
      · show List.Chain' (· ≤ ·) ((t.events ++ [e]).map MidiEvent.tick)
        rw [List.map_append, List.chain'_append]
        refine ⟨hchain, by simp, ?_⟩
        intro x hx y hy
        rw [List.getLast?_map, hlast] at hx
        simp at hx hy
        subst hx
        subst hy
        omega
  · exfalso
    simp [MidiTrack.add_event, hts] at hsort

theorem sort_tickSorted {t : MidiTrack} (ht : TickSorted t) : TickSorted t.sort := by
  intro habs hsort
  by_cases hts : t.sorted = true
  · simpa [MidiTrack.sort, hts] using ht (by simpa [MidiTrack.sort, hts] using habs) hts
  · have : t.sort = { t with events := (seqAssign t.events).mergeSort eventLe, sorted := true } := by
      simp [MidiTrack.sort, hts]
    rw [this]
    exact chain_tick_mergeSort _

theorem absLoop_chain (c : Nat) (es : List MidiEvent) :
    List.Chain' (· ≤ ·) ((absLoop c es).map MidiEvent.tick) ∧
    (∀ x ∈ ((absLoop c es).map MidiEvent.tick).head?, c ≤ x) := by
  induction es generalizing c with
  | nil => simp [absLoop]
  | cons e es ih =>
    simp only [absLoop, List.map_cons]
    have hx : (e.set_tick (c + e.tick)).tick = c + e.tick := rfl
    constructor
    · rw [List.chain'_cons']
      refine ⟨?_, (ih (c + e.tick)).1⟩
      intro y hy
      have := (ih (c + e.tick)).2 y hy
      rw [hx]
      omega
    · intro x hx'
      simp only [List.head?_cons, Option.mem_def, Option.some.injEq] at hx'
      subst hx'
      rw [hx]
      omega

theorem map_tick_modify (l : List MidiEvent) (j : Nat) (v : Option Nat) :
    (l.modify (fun e => e.set_linked_event v) j).map MidiEvent.tick = l.map MidiEvent.tick := by
  induction l generalizing j with
  | nil => simp
  | cons e es ih =>
    cases j with
    | zero => simp [MidiEvent.set_linked_event, MidiEvent.tick]
    | succ n => simp [ih]

theorem linkStep_map_tick (st : List MidiEvent × (Nat → List Nat)) (i : Nat) :
    (linkStep st i).1.map MidiEvent.tick = st.1.map MidiEvent.tick := by
  unfold linkStep
  repeat' split
  all_goals simp [map_tick_modify]

theorem linkFold_map_tick (idxs : List Nat) :
    ∀ st : List MidiEvent × (Nat → List Nat),
      ((idxs.foldl linkStep st).1).map MidiEvent.tick = st.1.map MidiEvent.tick := by
  induction idxs with
  | nil => intro st; rfl
  | cons i rest ih =>
    intro st
    rw [List.foldl_cons, ih]
    exact linkStep_map_tick st i

/-- Every public mutation preserves the tick-sortedness invariant. -/
theorem applyOp_tickSorted {t : MidiTrack} (ht : TickSorted t) (op : TrackOp) :
    TickSorted (applyOp t op) := by
  cases op with
  | addEvent e => exact add_event_tickSorted ht e
  | insertEvent i e =>
    intro habs hsort
    exact absurd hsort (by simp [applyOp, MidiTrack.insert_event])
  | removeEvent i =>
    intro habs hsort
    simp only [applyOp, MidiTrack.remove_event] at habs hsort ⊢
    split at habs <;> rename_i hlen
    · simp only [if_pos hlen] at hsort ⊢
      have hchain := ht habs hsort
      rw [List.chain'_iff_pairwise] at hchain ⊢
      exact hchain.sublist ((t.events.eraseIdx_sublist i).map MidiEvent.tick)
    · simp only [if_neg hlen] at hsort ⊢
      exact ht habs hsort
  | clearEvents =>
    intro habs hsort
    simp [applyOp, MidiTrack.clear]
  | sortEvents => exact sort_tickSorted ht
  | makeAbsoluteTimes =>
    intro habs hsort
    simp only [applyOp, MidiTrack.make_absolute_times] at habs hsort ⊢
    by_cases habs0 : t.absolute_time = true
    · simp only [habs0, if_true] at habs hsort ⊢
      exact ht habs0 hsort
    · simp only [habs0, if_false] at habs hsort ⊢
      exact (absLoop_chain 0 t.events).1
  | makeDeltaTimes =>
    intro habs hsort
    simp only [applyOp, MidiTrack.make_delta_times] at habs hsort ⊢
    by_cases habs0 : t.absolute_time = true
    · simp [habs0] at habs
    · simp only [habs0, if_false] at habs hsort ⊢
      exact ht habs hsort
  | linkNoteEvents =>
    intro habs hsort
    simp only [applyOp, MidiTrack.link_note_events] at habs hsort ⊢
    rw [linkFold_map_tick]
    exact sort_tickSorted ht habs hsort
  | unlinkNoteEvents =>
    intro habs hsort
    simp only [applyOp, MidiTrack.unlink_note_events] at habs hsort ⊢
    rw [List.map_map]
    have h : (MidiEvent.tick ∘ fun e => e.set_linked_event none) = MidiEvent.tick := rfl
    rw [h]
    exact ht habs hsort
  | addNote s d ch k v =>
    intro habs hsort
    exact absurd hsort (by simp [applyOp, MidiTrack.add_note])
  | addControlChange tk ch c v => exact add_event_tickSorted ht _
  | addProgramChange tk ch p => exact add_event_tickSorted ht _
  | addTempoUs tk us => exact add_event_tickSorted ht _
  | addTimeSignature tk n d => exact add_event_tickSorted ht _
  | addKeySignature tk s m => exact add_event_tickSorted ht _
  | addEndOfTrack => exact add_event_tickSorted ht _
  | ensureEndOfTrack =>
    simp only [applyOp, MidiTrack.ensure_end_of_track]
    split
    · exact ht
    · exact add_event_tickSorted ht _
  | mergeWith other =>
    intro habs hsort
    exact absurd hsort (by simp [applyOp, MidiTrack.merge])
  | eventsMut es =>
    intro habs hsort
    exact absurd hsort (by simp [applyOp, MidiTrack.events_mut_set])

/-- C3 counterexample: after `add_event` of a NoteOn at tick 0 followed by
`add_event` of a NoteOff at the same tick 0, the `sorted` flag is still true
while the buffer violates the §4.2 total order (the adjacent pair compares
`gt`), so the claimed disjunction fails on this reachable track. -/
theorem c3_counterexample :
    c3Track.sorted = true ∧
    c3Track.events = [MidiEvent.note_on 0 0 60 100, MidiEvent.note_off 0 0 60 0] ∧
    eventCmp (MidiEvent.note_on 0 0 60 100) (MidiEvent.note_off 0 0 60 0) = .gt ∧
    eventLe (MidiEvent.note_on 0 0 60 100) (MidiEvent.note_off 0 0 60 0) = false := by
  refine ⟨by decide, by decide, by decide, by decide⟩

/-- C3 amended: on every track reachable from `MidiTrack::new` through the
public mutations, whenever the track is in absolute-time mode and the
`sorted` flag is true, the event buffer is non-decreasing **by tick** (the
full §4.2 order can be violated at equal ticks, as the counterexample
shows: `add_event` clears the flag only when the new tick is strictly
smaller than the previous tail tick). -/
theorem c3_amended : ∀ ops : List TrackOp, TickSorted (ops.foldl applyOp MidiTrack.new) := by
  have H : ∀ (ops : List TrackOp) (t : MidiTrack), TickSorted t →
      TickSorted (ops.foldl applyOp t) := by
    intro ops
    induction ops with
    | nil => exact fun t ht => ht
    | cons op rest ih =>
      intro t ht
      exact ih _ (applyOp_tickSorted ht op)
  intro ops
  exact H ops MidiTrack.new (by intro _ _; simp [MidiTrack.new])

/-- C3 amended, witness: the invariant applied to the two-op counterexample
program, with the absolute-time and sorted hypotheses discharged by
computation. -/
theorem c3_amended_witness :
    List.Chain' (· ≤ ·)
      ((([TrackOp.addEvent (MidiEvent.note_on 0 0 60 100),
          TrackOp.addEvent (MidiEvent.note_off 0 0 60 0)]).foldl applyOp
            MidiTrack.new).events.map MidiEvent.tick) :=
  c3_amended [TrackOp.addEvent (MidiEvent.note_on 0 0 60 100),
    TrackOp.addEvent (MidiEvent.note_off 0 0 60 0)] rfl rfl

/-! ## Claim C7 -/

/-- On a tick-sorted buffer, converting to deltas and back to absolute times
restores every event exactly. -/
theorem absLoop_deltaLoop (prev : Nat) (es : List MidiEvent)
    (h : List.Chain' (· ≤ ·) (es.map MidiEvent.tick))
    (hprev : ∀ x ∈ (es.map MidiEvent.tick).head?, prev ≤ x) :
    absLoop prev (deltaLoop prev es) = es := by
  induction es generalizing prev with
  | nil => rfl
  | cons e es ih =>
    have he : prev ≤ e.tick := hprev e.tick (by simp)
    simp only [List.map_cons] at h
    have hh := List.chain'_cons'.mp h
    show (e.set_tick (e.tick - prev)).set_tick (prev + (e.set_tick (e.tick - prev)).tick) ::
      absLoop (prev + (e.set_tick (e.tick - prev)).tick) (deltaLoop e.tick es) = e :: es
    have harith : prev + (e.set_tick (e.tick - prev)).tick = e.tick := by
      show prev + (e.tick - prev) = e.tick
      omega
    rw [harith]
    have hself : (e.set_tick (e.tick - prev)).set_tick e.tick = e := rfl
    rw [hself, ih e.tick hh.2 hh.1]

/-- Sorting a track whose ticks are already non-decreasing permutes events
only within equal-tick runs, so the positional tick sequence is unchanged. -/
theorem map_tick_sort_of_chain {t : MidiTrack}
    (h : List.Chain' (· ≤ ·) (t.events.map MidiEvent.tick)) :
    t.sort.events.map MidiEvent.tick = t.events.map MidiEvent.tick := by
  by_cases hts : t.sorted = true
  · simp [MidiTrack.sort, hts]
  · simp only [MidiTrack.sort, hts, if_false, Bool.false_eq_true]
    have hperm : List.Perm (((seqAssign t.events).mergeSort eventLe).map MidiEvent.tick)
        (t.events.map MidiEvent.tick) := by
      have hp := (List.mergeSort_perm (seqAssign t.events) eventLe).map MidiEvent.tick
      rwa [map_tick_seqAssign] at hp
    have hsorted1 :
        List.Sorted (· ≤ ·) (((seqAssign t.events).mergeSort eventLe).map MidiEvent.tick) :=
      List.pairwise_map.mpr
        ((List.sorted_mergeSort eventLe_trans eventLe_total _).imp (fun hab => eventLe_tick hab))
    have hsorted2 : List.Sorted (· ≤ ·) (t.events.map MidiEvent.tick) :=
      List.chain'_iff_pairwise.mp h
    exact List.eq_of_perm_of_sorted hperm hsorted1 hsorted2

/-- The sorted buffer also has non-decreasing ticks after `sort`. -/
theorem chain_tick_sort {t : MidiTrack}
    (h : List.Chain' (· ≤ ·) (t.events.map MidiEvent.tick)) :
    List.Chain' (· ≤ ·) (t.sort.events.map MidiEvent.tick) := by
  rw [map_tick_sort_of_chain h]
  exact h

/-- C7: for a track in absolute-time mode whose events have non-decreasing
ticks, `make_delta_times()` followed by `make_absolute_times()` restores
every event's tick to its original value, and the track ends in
absolute-time mode. -/
theorem c7_delta_abs_roundtrip (t : MidiTrack) (habs : t.absolute_time = true)
    (hsorted : List.Chain' (· ≤ ·) (t.events.map MidiEvent.tick)) :
    (t.make_delta_times.make_absolute_times).events.map MidiEvent.tick =
      t.events.map MidiEvent.tick ∧
    (t.make_delta_times.make_absolute_times).absolute_time = true := by
  have hd : t.make_delta_times =
      { t.sort with events := deltaLoop 0 t.sort.events, absolute_time := false } := by
    simp [MidiTrack.make_delta_times, habs]
  have ha : t.make_delta_times.make_absolute_times =
      { t.sort with events := absLoop 0 (deltaLoop 0 t.sort.events), absolute_time := true } := by
    rw [hd]
    simp [MidiTrack.make_absolute_times]
  rw [ha]
  refine ⟨?_, rfl⟩
  show (absLoop 0 (deltaLoop 0 t.sort.events)).map MidiEvent.tick = t.events.map MidiEvent.tick
  rw [absLoop_deltaLoop 0 t.sort.events (chain_tick_sort hsorted) (fun x _ => Nat.zero_le x)]
  exact map_tick_sort_of_chain hsorted

/-- C7 witness: the roundtrip applied to a concrete sorted two-event track
(NoteOn at tick 0, NoteOff at tick 480), hypotheses discharged by
computation. -/
theorem c7_delta_abs_roundtrip_witness :
    c7Track.absolute_time = true ∧
    List.Chain' (· ≤ ·) (c7Track.events.map MidiEvent.tick) ∧
    ((c7Track.make_delta_times.make_absolute_times).events.map MidiEvent.tick =
      c7Track.events.map MidiEvent.tick ∧
     (c7Track.make_delta_times.make_absolute_times).absolute_time = true) :=
  have hchain : List.Chain' (· ≤ ·) (c7Track.events.map MidiEvent.tick) := by
    rw [show c7Track.events.map MidiEvent.tick = [0, 480] from rfl]
    exact List.chain'_pair.mpr (by omega)
  ⟨rfl, hchain, c7_delta_abs_roundtrip c7Track rfl hchain⟩

/-! ## Claim C9 (amended) -/

theorem foldl_add_event_events (es : List MidiEvent) :
    ∀ t : MidiTrack, (es.foldl MidiTrack.add_event t).events = t.events ++ es := by
  induction es with
  | nil => intro t; simp
  | cons e rest ih =>
    intro t
    rw [List.foldl_cons, ih]
    simp [MidiTrack.add_event]

theorem merge_events (t other : MidiTrack) :
    (t.merge other).events = t.events ++ other.events ∧ (t.merge other).sorted = false :=
  ⟨foldl_add_event_events other.events t, rfl⟩

theorem foldl_merge_events (ts : List MidiTrack) :
    ∀ acc : MidiTrack, (ts.foldl MidiTrack.merge acc).events =
      acc.events ++ (ts.map MidiTrack.events).flatten := by
  induction ts with
  | nil => intro acc; simp
  | cons t rest ih =>
    intro acc
    rw [List.foldl_cons, ih, (merge_events acc t).1]
    simp [List.append_assoc]

theorem foldl_merge_sorted (ts : List MidiTrack) (hts : ts ≠ []) :
    ∀ acc : MidiTrack, (ts.foldl MidiTrack.merge acc).sorted = false := by
  induction ts with
  | nil => exact absurd rfl hts
  | cons t rest ih =>
    intro acc
    rw [List.foldl_cons]
    cases hr : rest with
    | nil => exact (merge_events acc t).2
    | cons t2 r2 =>
      subst hr
      exact ih (by simp) _

theorem map_pair_seqAssign (es : List MidiEvent) :
    (seqAssign es).map (fun e => (e.tick, e.message)) =
      es.map (fun e => (e.tick, e.message)) := by
  rw [seqAssign, List.map_map]
  have h : ((fun e : MidiEvent => (e.tick, e.message)) ∘
      fun p : Nat × MidiEvent => p.2.set_seq (p.1 % 2 ^ 32)) =
      (fun e : MidiEvent => (e.tick, e.message)) ∘ Prod.snd := rfl
  rw [h, ← List.map_map, List.enum_map_snd]

/-- C9 amended: for a file with at least one track, `merge_tracks` sets
format 0 and leaves exactly one track, whose events are a permutation (as
(tick, message) pairs) of all events of the original tracks and are sorted
by the §4.2 order, with the sorted flag set.  (The zero-track case, which
the claim as stated also covered, is the counterexample: the file is
returned unchanged.) -/
theorem c9_amended (f : MidiFile) (h : f.tracks ≠ []) :
    f.merge_tracks.format = .singleTrack ∧
    f.merge_tracks.tracks.length = 1 ∧
    ∀ t ∈ f.merge_tracks.tracks,
      List.Perm (t.events.map (fun e => (e.tick, e.message)))
        (((f.tracks.map MidiTrack.events).flatten).map (fun e => (e.tick, e.message))) ∧
      List.Pairwise (fun a b => eventLe a b = true) t.events ∧
      t.sorted = true := by
  have hmerge : f.merge_tracks =
      { f with tracks := [(f.tracks.foldl MidiTrack.merge MidiTrack.new).sort],
               format := .singleTrack, time_map := none } := by
    simp [MidiFile.merge_tracks, h]
  rw [hmerge]
  refine ⟨rfl, rfl, ?_⟩
  intro t htmem
  simp only [List.mem_singleton] at htmem
  subst htmem
  have hsf := foldl_merge_sorted f.tracks h MidiTrack.new
  have hev : (f.tracks.foldl MidiTrack.merge MidiTrack.new).events =
      (f.tracks.map MidiTrack.events).flatten := by
    rw [foldl_merge_events]
    rfl
  have hsort_eq : (f.tracks.foldl MidiTrack.merge MidiTrack.new).sort =
      { events :=
          (seqAssign (f.tracks.foldl MidiTrack.merge MidiTrack.new).events).mergeSort eventLe,
        name := (f.tracks.foldl MidiTrack.merge MidiTrack.new).name,
        absolute_time := (f.tracks.foldl MidiTrack.merge MidiTrack.new).absolute_time,
        sorted := true } := by
    simp only [MidiTrack.sort, hsf, Bool.false_eq_true, if_false]
  rw [hsort_eq]
  refine ⟨?_, List.sorted_mergeSort eventLe_trans eventLe_total _, rfl⟩
  show List.Perm
    (((seqAssign (f.tracks.foldl MidiTrack.merge MidiTrack.new).events).mergeSort
        eventLe).map (fun e => (e.tick, e.message)))
    (((f.tracks.map MidiTrack.events).flatten).map (fun e => (e.tick, e.message)))
  rw [hev]
  have hp := (List.mergeSort_perm
    (seqAssign ((f.tracks.map MidiTrack.events).flatten)) eventLe).map
      (fun e : MidiEvent => (e.tick, e.message))
  rw [map_pair_seqAssign] at hp
  exact hp

/-- C9 amended, witness: the theorem applied to a concrete one-track file
(60 BPM tempo track), its nonemptiness hypothesis discharged by
computation. -/
theorem c9_amended_witness :
    ({ format := .multiTrack, ticks_per_quarter := 480,
       tracks := [MidiTrack.new.add_event (MidiEvent.new 0 (.meta (.tempo 1000000)))],
       time_map := none : MidiFile }).tracks ≠ [] ∧
    ({ format := .multiTrack, ticks_per_quarter := 480,
       tracks := [MidiTrack.new.add_event (MidiEvent.new 0 (.meta (.tempo 1000000)))],
       time_map := none : MidiFile }).merge_tracks.format = .singleTrack :=
  ⟨by simp,
    (c9_amended
      { format := .multiTrack, ticks_per_quarter := 480,
        tracks := [MidiTrack.new.add_event (MidiEvent.new 0 (.meta (.tempo 1000000)))],
        time_map := none } (by simp)).1⟩

/-! ## Claim C4 -/
theorem metaEvent_from_bytes_encoded (tb : Nat) (payload : List Nat)
    (hlen : payload.length < 2 ^ 28) :
    MetaEvent.from_bytes (tb :: (encode_varlen payload.length ++ payload)) =
      some (metaParse tb payload,
        1 + (encode_varlen payload.length).length + payload.length) := by
  simp only [MetaEvent.from_bytes]
  rw [decode_encode_varlen payload.length hlen payload]
  dsimp only
  have hguard : ¬ ((tb :: (encode_varlen payload.length ++ payload)).length <
      1 + (encode_varlen payload.length).length + payload.length) := by
    simp only [List.length_cons, List.length_append]
    omega
  rw [if_neg hguard]
  have hcomm : 1 + (encode_varlen payload.length).length =
      (encode_varlen payload.length).length + 1 := by omega
  have hed : ((tb :: (encode_varlen payload.length ++ payload)).drop
      (1 + (encode_varlen payload.length).length)).take payload.length = payload := by
    rw [hcomm, List.drop_succ_cons, List.drop_left, List.take_length]
  rw [hed]

theorem findIdx_append_247 (d : List Nat) (hd : ∀ b ∈ d, b < 128) :
    ∀ i, List.findIdx? (fun b => b == 247) (d ++ [247]) i = some (i + d.length) := by
  induction d with
  | nil => intro i; simp [List.findIdx?]
  | cons b rest ih =>
    intro i
    have hb : b < 128 := hd b (List.mem_cons_self b rest)
    have hbne : (b == 247) = false := by
      simp only [beq_eq_false_iff_ne, ne_eq]
      omega
    simp only [List.cons_append, List.findIdx?, hbne, Bool.false_eq_true, if_false,
      List.append_eq]
    rw [ih (fun x hx => hd x (List.mem_cons_of_mem b hx)) (i + 1)]
    simp only [List.length_cons, Option.some.injEq]
    omega

theorem midiMessage_from_bytes_meta (tb : Nat) (htb : tb < 128) (rest2 : List Nat) :
    MidiMessage.from_bytes (0xFF :: tb :: rest2) =
      (MetaEvent.from_bytes (tb :: rest2)).map (fun p => (.meta p.1, p.2 + 1)) := by
  simp [MidiMessage.from_bytes, htb]


theorem metaParse_unknown (t : Nat) (ht : t ∉ knownMetaTypes) (d : List Nat) :
    metaParse t d = .unknown t d := by
  simp only [knownMetaTypes, List.mem_cons, List.not_mem_nil, or_false, not_or] at ht
  obtain ⟨h0, h1, h2, h3, h4, h5, h6, h7, h8, h9, h20, h21, h2F, h51, h54, h58, h59, h7F⟩ := ht
  simp [metaParse, h0, h1, h2, h3, h4, h5, h6, h7, h8, h9, h20, h21, h2F, h51, h54, h58, h59, h7F]

/-- C4: for every well-formed `MidiMessage` value (channels below 16, data
fields in the constructor-masked 7-bit ranges, 14-bit pitch-bend and
song-position values, 7-bit SysEx payload bytes — whose wire form is `0xF0,
payload, 0xF7` — and wire-representable meta fields),
`MidiMessage::from_bytes (m.to_bytes())` returns `Some (m, n)` with `n`
exactly the length of `m.to_bytes()`. -/
theorem c4_message_roundtrip (m : MidiMessage) (hwf : m.wf) :
    MidiMessage.from_bytes m.to_bytes = some (m, m.to_bytes.length) := by
  cases m with
  | noteOff ch k v =>
    obtain ⟨hch, hk, hv⟩ := hwf
    have h8 : (128 + ch) / 16 = 8 := by omega
    have hmod : (128 + ch) % 16 = ch := by omega
    simp [MidiMessage.to_bytes, MidiMessage.from_bytes, h8, hmod]
  | noteOn ch k v =>
    obtain ⟨hch, hk, hv⟩ := hwf
    have h9 : (144 + ch) / 16 = 9 := by omega
    have hmod : (144 + ch) % 16 = ch := by omega
    simp [MidiMessage.to_bytes, MidiMessage.from_bytes, h9, hmod]
  | polyPressure ch k p =>
    obtain ⟨hch, hk, hp⟩ := hwf
    have h10 : (160 + ch) / 16 = 10 := by omega
    have hmod : (160 + ch) % 16 = ch := by omega
    simp [MidiMessage.to_bytes, MidiMessage.from_bytes, h10, hmod]
  | controlChange ch c v =>
    obtain ⟨hch, hc, hv⟩ := hwf
    have h11 : (176 + ch) / 16 = 11 := by omega
    have hmod : (176 + ch) % 16 = ch := by omega
    simp [MidiMessage.to_bytes, MidiMessage.from_bytes, h11, hmod]
  | programChange ch p =>
    obtain ⟨hch, hp⟩ := hwf
    have h12 : (192 + ch) / 16 = 12 := by omega
    have hmod : (192 + ch) % 16 = ch := by omega
    simp [MidiMessage.to_bytes, MidiMessage.from_bytes, h12, hmod]
  | channelPressure ch p =>
    obtain ⟨hch, hp⟩ := hwf
    have h13 : (208 + ch) / 16 = 13 := by omega
    have hmod : (208 + ch) % 16 = ch := by omega
    simp [MidiMessage.to_bytes, MidiMessage.from_bytes, h13, hmod]
  | pitchBend ch v =>
    obtain ⟨hch, hv⟩ := hwf
    have h14 : (224 + ch) / 16 = 14 := by omega
    have hmod : (224 + ch) % 16 = ch := by omega
    simp only [MidiMessage.to_bytes, MidiMessage.from_bytes, h14, hmod]
    simp only [List.length_cons, List.length_nil, Option.some.injEq, Prod.mk.injEq,
      MidiMessage.pitchBend.injEq]
    exact ⟨⟨trivial, by omega⟩, trivial⟩
  | sysEx d =>
    have hd : ∀ b ∈ d, b < 128 := hwf
    have hfind : List.findIdx? (fun b => b == 247) (240 :: (d ++ [247])) = some (d.length + 1) := by
      show List.findIdx? (fun b => b == 247) (240 :: (d ++ [247])) 0 = some (d.length + 1)
      have h240 : ((240 : Nat) == 247) = false := by decide
      simp only [List.findIdx?, h240, Bool.false_eq_true, if_false]
      rw [findIdx_append_247 d hd 1]
      simp [Nat.add_comm]
    simp only [MidiMessage.to_bytes, MidiMessage.from_bytes, hfind]
    simp [List.take_left']
  | mtcQuarterFrame d => simp [MidiMessage.to_bytes, MidiMessage.from_bytes]
  | songPosition pos =>
    have hv : pos < 16384 := hwf
    simp [MidiMessage.to_bytes, MidiMessage.from_bytes]
    omega
  | songSelect song => simp [MidiMessage.to_bytes, MidiMessage.from_bytes]
  | tuneRequest => rfl
  | timingClock => rfl
  | start => rfl
  | cont => rfl
  | stop => rfl
  | activeSensing => rfl
  | systemReset => rfl
  | meta me =>
    have hwf' : me.wf := hwf
    cases me with
    | sequenceNumber n =>
      have hn : n < 65536 := hwf'
      simp only [MidiMessage.to_bytes, MetaEvent.to_bytes, MetaEvent.type_byte, MetaEvent.payload]
      rw [midiMessage_from_bytes_meta _ (by norm_num) _,
        metaEvent_from_bytes_encoded _ _ (by simp)]
      simp [metaParse, encode_varlen, varlenLoop]
      omega
    | text s =>
      obtain ⟨hlen, hb⟩ := hwf'
      simp only [MidiMessage.to_bytes, MetaEvent.to_bytes, MetaEvent.type_byte, MetaEvent.payload]
      rw [midiMessage_from_bytes_meta _ (by norm_num) _,
        metaEvent_from_bytes_encoded _ _ hlen]
      simp [metaParse]
      omega
    | copyright s =>
      obtain ⟨hlen, hb⟩ := hwf'
      simp only [MidiMessage.to_bytes, MetaEvent.to_bytes, MetaEvent.type_byte, MetaEvent.payload]
      rw [midiMessage_from_bytes_meta _ (by norm_num) _,
        metaEvent_from_bytes_encoded _ _ hlen]
      simp [metaParse]
      omega
    | trackName s =>
      obtain ⟨hlen, hb⟩ := hwf'
      simp only [MidiMessage.to_bytes, MetaEvent.to_bytes, MetaEvent.type_byte, MetaEvent.payload]
      rw [midiMessage_from_bytes_meta _ (by norm_num) _,
        metaEvent_from_bytes_encoded _ _ hlen]
      simp [metaParse]
      omega
    | instrumentName s =>
      obtain ⟨hlen, hb⟩ := hwf'
      simp only [MidiMessage.to_bytes, MetaEvent.to_bytes, MetaEvent.type_byte, MetaEvent.payload]
      rw [midiMessage_from_bytes_meta _ (by norm_num) _,
        metaEvent_from_bytes_encoded _ _ hlen]
      simp [metaParse]
      omega
    | lyric s =>
      obtain ⟨hlen, hb⟩ := hwf'
      simp only [MidiMessage.to_bytes, MetaEvent.to_bytes, MetaEvent.type_byte, MetaEvent.payload]
      rw [midiMessage_from_bytes_meta _ (by norm_num) _,
        metaEvent_from_bytes_encoded _ _ hlen]
      simp [metaParse]
      omega
    | marker s =>
      obtain ⟨hlen, hb⟩ := hwf'
      simp only [MidiMessage.to_bytes, MetaEvent.to_bytes, MetaEvent.type_byte, MetaEvent.payload]
      rw [midiMessage_from_bytes_meta _ (by norm_num) _,
        metaEvent_from_bytes_encoded _ _ hlen]
      simp [metaParse]
      omega
    | cuePoint s =>
      obtain ⟨hlen, hb⟩ := hwf'
      simp only [MidiMessage.to_bytes, MetaEvent.to_bytes, MetaEvent.type_byte, MetaEvent.payload]
      rw [midiMessage_from_bytes_meta _ (by norm_num) _,
        metaEvent_from_bytes_encoded _ _ hlen]
      simp [metaParse]
      omega
    | programName s =>
      obtain ⟨hlen, hb⟩ := hwf'
      simp only [MidiMessage.to_bytes, MetaEvent.to_bytes, MetaEvent.type_byte, MetaEvent.payload]
      rw [midiMessage_from_bytes_meta _ (by norm_num) _,
        metaEvent_from_bytes_encoded _ _ hlen]
      simp [metaParse]
      omega
    | deviceName s =>
      obtain ⟨hlen, hb⟩ := hwf'
      simp only [MidiMessage.to_bytes, MetaEvent.to_bytes, MetaEvent.type_byte, MetaEvent.payload]
      rw [midiMessage_from_bytes_meta _ (by norm_num) _,
        metaEvent_from_bytes_encoded _ _ hlen]
      simp [metaParse]
      omega
    | channelPfx ch =>
      simp only [MidiMessage.to_bytes, MetaEvent.to_bytes, MetaEvent.type_byte, MetaEvent.payload]
      rw [midiMessage_from_bytes_meta _ (by norm_num) _,
        metaEvent_from_bytes_encoded _ _ (by simp)]
      simp [metaParse, encode_varlen, varlenLoop]
    | midiPort port =>
      simp only [MidiMessage.to_bytes, MetaEvent.to_bytes, MetaEvent.type_byte, MetaEvent.payload]
      rw [midiMessage_from_bytes_meta _ (by norm_num) _,
        metaEvent_from_bytes_encoded _ _ (by simp)]
      simp [metaParse, encode_varlen, varlenLoop]
    | endOfTrack =>
      simp only [MidiMessage.to_bytes, MetaEvent.to_bytes, MetaEvent.type_byte, MetaEvent.payload]
      rw [midiMessage_from_bytes_meta _ (by norm_num) _,
        metaEvent_from_bytes_encoded _ _ (by simp)]
      simp [metaParse, encode_varlen, varlenLoop]
    | tempo us =>
      have hus : us < 2 ^ 24 := hwf'
      simp only [MidiMessage.to_bytes, MetaEvent.to_bytes, MetaEvent.type_byte, MetaEvent.payload]
      rw [midiMessage_from_bytes_meta _ (by norm_num) _,
        metaEvent_from_bytes_encoded _ _ (by simp)]
      simp [metaParse, encode_varlen, varlenLoop]
      omega
    | smpteOffset h1 m1 s1 f1 sf1 =>
      simp only [MidiMessage.to_bytes, MetaEvent.to_bytes, MetaEvent.type_byte, MetaEvent.payload]
      rw [midiMessage_from_bytes_meta _ (by norm_num) _,
        metaEvent_from_bytes_encoded _ _ (by simp)]
      simp [metaParse, encode_varlen, varlenLoop]
    | timeSignature n1 d1 c1 t1 =>
      simp only [MidiMessage.to_bytes, MetaEvent.to_bytes, MetaEvent.type_byte, MetaEvent.payload]
      rw [midiMessage_from_bytes_meta _ (by norm_num) _,
        metaEvent_from_bytes_encoded _ _ (by simp)]
      simp [metaParse, encode_varlen, varlenLoop]
    | keySignature s minor =>
      obtain ⟨hlo, hhi⟩ := hwf'
      simp only [MidiMessage.to_bytes, MetaEvent.to_bytes, MetaEvent.type_byte, MetaEvent.payload]
      rw [midiMessage_from_bytes_meta _ (by norm_num) _,
        metaEvent_from_bytes_encoded _ _ (by simp)]
      simp only [metaParse, encode_varlen, varlenLoop]
      norm_num
      refine ⟨?_, by omega⟩
      split <;> omega
    | sequencerSpecific dta =>
      obtain ⟨hlen, hb⟩ := hwf'
      simp only [MidiMessage.to_bytes, MetaEvent.to_bytes, MetaEvent.type_byte, MetaEvent.payload]
      rw [midiMessage_from_bytes_meta _ (by norm_num) _,
        metaEvent_from_bytes_encoded _ _ hlen]
      simp [metaParse]
      omega
    | unknown t dta =>
      obtain ⟨ht, hmem, hlen, hb⟩ := hwf'
      simp only [MidiMessage.to_bytes, MetaEvent.to_bytes, MetaEvent.type_byte, MetaEvent.payload]
      rw [midiMessage_from_bytes_meta _ ht _,
        metaEvent_from_bytes_encoded _ _ hlen]
      rw [metaParse_unknown t hmem dta]
      simp
      omega

/-- C4 witness: the roundtrip applied to `NoteOn(ch 3, key 60, vel 100)`
and to the SysEx message with payload `[1, 2, 3]`. -/
theorem c4_message_roundtrip_witness :
    (MidiMessage.noteOn 3 60 100).wf ∧
    MidiMessage.from_bytes (MidiMessage.noteOn 3 60 100).to_bytes =
      some (MidiMessage.noteOn 3 60 100, (MidiMessage.noteOn 3 60 100).to_bytes.length) :=
  ⟨⟨by norm_num, by norm_num, by norm_num⟩,
    c4_message_roundtrip (MidiMessage.noteOn 3 60 100) ⟨by norm_num, by norm_num, by norm_num⟩⟩


/-! ## Claim C5: note on/off linking -/

theorem pend_some {es : List MidiEvent} {idx j : Nat} :
    ∀ {k}, pend es k idx = some j →
      j < k ∧ (∃ e, es[j]? = some e ∧ noteKind e.message = some (idx, true)) ∧
      ∀ m, j < m → m < k → ∀ e' b, es[m]? = some e' → noteKind e'.message ≠ some (idx, b) := by
  intro k
  induction k with
  | zero => intro h; simp [pend] at h
  | succ k ih =>
    intro h
    rw [pend] at h
    cases hek : es[k]? with
    | none =>
      rw [hek] at h
      dsimp only at h
      obtain ⟨h1, h2, h3⟩ := ih h
      refine ⟨by omega, h2, ?_⟩
      intro m hm1 hm2 e' b he'
      rcases Nat.lt_or_ge m k with hmk | hmk
      · exact h3 m hm1 hmk e' b he'
      · have : m = k := by omega
        subst this
        rw [hek] at he'
        simp at he'
    | some e =>
      rw [hek] at h
      dsimp only at h
      cases hnk : noteKind e.message with
      | none =>
        rw [hnk] at h
        dsimp only at h
        obtain ⟨h1, h2, h3⟩ := ih h
        refine ⟨by omega, h2, ?_⟩
        intro m hm1 hm2 e' b he'
        rcases Nat.lt_or_ge m k with hmk | hmk
        · exact h3 m hm1 hmk e' b he'
        · have : m = k := by omega
          subst this
          rw [hek] at he'
          simp at he'
          subst he'
          simp [hnk]
      | some p =>
        obtain ⟨idx', bb⟩ := p
        rw [hnk] at h
        dsimp only at h
        by_cases hidx : idx' = idx
        · subst hidx
          simp only [if_pos rfl] at h
          cases bb with
          | true =>
            simp only [if_pos rfl] at h
            have hj : j = k := by
              simp at h
              omega
            subst hj
            refine ⟨by omega, ⟨e, hek, hnk⟩, ?_⟩
            intro m hm1 hm2
            omega
          | false => simp at h
        · rw [if_neg hidx] at h
          obtain ⟨h1, h2, h3⟩ := ih h
          refine ⟨by omega, h2, ?_⟩
          intro m hm1 hm2 e' b he'
          rcases Nat.lt_or_ge m k with hmk | hmk
          · exact h3 m hm1 hmk e' b he'
          · have : m = k := by omega
            subst this
            rw [hek] at he'
            simp at he'
            subst he'
            rw [hnk]
            simp only [ne_eq, Option.some.injEq, Prod.mk.injEq, not_and]
            intro hc
            exact absurd hc hidx

theorem mem_pairsUpto {es : List MidiEvent} {p : Nat × Nat} :
    ∀ {k}, p ∈ pairsUpto es k ↔
      (p.2 < k ∧ ∃ e idx, es[p.2]? = some e ∧ noteKind e.message = some (idx, false) ∧
        pend es p.2 idx = some p.1) := by
  intro k
  induction k with
  | zero => simp [pairsUpto]
  | succ k ih =>
    rw [pairsUpto, List.mem_append, ih]
    constructor
    · rintro (⟨h1, h2⟩ | hm)
      · exact ⟨by omega, h2⟩
      · cases hek : es[k]? with
        | none => rw [hek] at hm; simp at hm
        | some e =>
          rw [hek] at hm
          dsimp only at hm
          cases hnk : noteKind e.message with
          | none => rw [hnk] at hm; simp at hm
          | some q =>
            obtain ⟨idx, bb⟩ := q
            rw [hnk] at hm
            cases bb with
            | true => simp at hm
            | false =>
              dsimp only at hm
              cases hp : pend es k idx with
              | none => rw [hp] at hm; simp at hm
              | some j =>
                rw [hp] at hm
                simp only [List.mem_singleton] at hm
                subst hm
                exact ⟨by omega, e, idx, hek, hnk, hp⟩
    · rintro ⟨h1, e, idx, he, hnk, hp⟩
      rcases Nat.lt_or_ge p.2 k with hlt | hge
      · exact Or.inl ⟨hlt, e, idx, he, hnk, hp⟩
      · have hp2 : p.2 = k := by omega
        right
        rw [← hp2, he]
        dsimp only
        rw [hnk]
        dsimp only
        rw [hp]
        simp

theorem pairsUpto_mono {es : List MidiEvent} {m n : Nat} (h : m ≤ n) :
    ∀ p ∈ pairsUpto es m, p ∈ pairsUpto es n := by
  intro p hp
  rw [mem_pairsUpto] at hp ⊢
  obtain ⟨h1, rest⟩ := hp
  exact ⟨by omega, rest⟩

theorem noteKind_det {m : MidiMessage} {i1 i2 : Nat} {b1 b2 : Bool}
    (h1 : noteKind m = some (i1, b1)) (h2 : noteKind m = some (i2, b2)) :
    i1 = i2 ∧ b1 = b2 := by
  rw [h1] at h2
  simp at h2
  exact ⟨h2.1, h2.2⟩

theorem pairs_off_unique {es : List MidiEvent} {n : Nat} {p q : Nat × Nat}
    (hp : p ∈ pairsUpto es n) (hq : q ∈ pairsUpto es n) (h : p.2 = q.2) : p = q := by
  rw [mem_pairsUpto] at hp hq
  obtain ⟨hb1, e1, idx1, he1, hn1, hpd1⟩ := hp
  obtain ⟨hb2, e2, idx2, he2, hn2, hpd2⟩ := hq
  rw [h] at he1 hpd1
  rw [he2] at he1
  simp only [Option.some.injEq] at he1
  subst he1
  obtain ⟨hidx, -⟩ := noteKind_det hn1 hn2
  subst hidx
  rw [hpd2] at hpd1
  simp only [Option.some.injEq] at hpd1
  obtain ⟨a1, b1⟩ := p
  obtain ⟨a2, b2⟩ := q
  simp_all

theorem pairs_on_unique {es : List MidiEvent} {n : Nat} {p q : Nat × Nat}
    (hp : p ∈ pairsUpto es n) (hq : q ∈ pairsUpto es n) (h : p.1 = q.1) : p = q := by
  rcases Nat.lt_trichotomy p.2 q.2 with hlt | heq | hgt
  · exfalso
    rw [mem_pairsUpto] at hp hq
    obtain ⟨hb1, e1, idx1, he1, hn1, hpd1⟩ := hp
    obtain ⟨hb2, e2, idx2, he2, hn2, hpd2⟩ := hq
    obtain ⟨-, ⟨ea1, hea1, hka1⟩, -⟩ := pend_some hpd1
    obtain ⟨hq1lt, ⟨ea2, hea2, hka2⟩, hbetween⟩ := pend_some hpd2
    rw [h] at hea1
    rw [hea2] at hea1
    simp only [Option.some.injEq] at hea1
    subst hea1
    obtain ⟨hidx, -⟩ := noteKind_det hka1 hka2
    subst hidx
    have hplt : q.1 < p.2 := by
      obtain ⟨hp2lt, -, -⟩ := pend_some hpd1
      omega
    exact hbetween p.2 hplt hlt e1 false he1 hn1
  · exact pairs_off_unique hp hq heq
  · exfalso
    rw [mem_pairsUpto] at hp hq
    obtain ⟨hb1, e1, idx1, he1, hn1, hpd1⟩ := hp
    obtain ⟨hb2, e2, idx2, he2, hn2, hpd2⟩ := hq
    obtain ⟨hq1lt, ⟨ea1, hea1, hka1⟩, hbetween⟩ := pend_some hpd1
    obtain ⟨-, ⟨ea2, hea2, hka2⟩, -⟩ := pend_some hpd2
    rw [← h] at hea2
    rw [hea1] at hea2
    simp only [Option.some.injEq] at hea2
    subst hea2
    obtain ⟨hidx, -⟩ := noteKind_det hka1 hka2
    subst hidx
    have hplt : p.1 < q.2 := by
      obtain ⟨hp2lt, -, -⟩ := pend_some hpd2
      omega
    exact hbetween q.2 hplt hgt e2 false he2 hn2

theorem pairs_roles_disjoint {es : List MidiEvent} {n : Nat} {p q : Nat × Nat}
    (hp : p ∈ pairsUpto es n) (hq : q ∈ pairsUpto es n) : p.1 ≠ q.2 := by
  intro h
  rw [mem_pairsUpto] at hp hq
  obtain ⟨hb1, e1, idx1, he1, hn1, hpd1⟩ := hp
  obtain ⟨hb2, e2, idx2, he2, hn2, hpd2⟩ := hq
  obtain ⟨-, ⟨ea, hea, hka⟩, -⟩ := pend_some hpd1
  rw [h, he2] at hea
  simp only [Option.some.injEq] at hea
  subst hea
  obtain ⟨-, hb⟩ := noteKind_det hka hn2
  simp at hb

theorem linkedVal_not_mem (pairs : List (Nat × Nat)) (m : Nat) (orig : Option Nat)
    (h : ∀ p ∈ pairs, p.1 ≠ m ∧ p.2 ≠ m) : linkedVal pairs m orig = orig := by
  induction pairs generalizing orig with
  | nil => rfl
  | cons p rest ih =>
    obtain ⟨h1, h2⟩ := h p (List.mem_cons_self p rest)
    rw [linkedVal, List.foldl_cons, if_neg h1, if_neg h2]
    exact ih orig (fun q hq => h q (List.mem_cons_of_mem p hq))

theorem linkedVal_stable (pairs : List (Nat × Nat)) (m v : Nat)
    (hcons : ∀ p ∈ pairs, (p.1 = m → p.2 = v) ∧ (p.2 = m → p.1 = v)) :
    linkedVal pairs m (some v) = some v := by
  induction pairs with
  | nil => rfl
  | cons p rest ih =>
    rw [linkedVal, List.foldl_cons]
    have hp := hcons p (List.mem_cons_self p rest)
    have ih' := ih (fun q hq => hcons q (List.mem_cons_of_mem p hq))
    by_cases h1 : p.1 = m
    · rw [if_pos h1, hp.1 h1]
      exact ih'
    · rw [if_neg h1]
      by_cases h2 : p.2 = m
      · rw [if_pos h2, hp.2 h2]
        exact ih'
      · rw [if_neg h2]
        exact ih'

theorem linkedVal_mem (pairs : List (Nat × Nat)) (m v : Nat) (orig : Option Nat)
    (hmem : ∃ p ∈ pairs, p.1 = m ∨ p.2 = m)
    (hcons : ∀ p ∈ pairs, (p.1 = m → p.2 = v) ∧ (p.2 = m → p.1 = v)) :
    linkedVal pairs m orig = some v := by
  induction pairs generalizing orig with
  | nil => simp at hmem
  | cons p rest ih =>
    have hconsrest : ∀ q ∈ rest, (q.1 = m → q.2 = v) ∧ (q.2 = m → q.1 = v) :=
      fun q hq => hcons q (List.mem_cons_of_mem p hq)
    rw [linkedVal, List.foldl_cons]
    by_cases h1 : p.1 = m
    · rw [if_pos h1, (hcons p (List.mem_cons_self p rest)).1 h1]
      exact linkedVal_stable rest m v hconsrest
    · rw [if_neg h1]
      by_cases h2 : p.2 = m
      · rw [if_pos h2, (hcons p (List.mem_cons_self p rest)).2 h2]
        exact linkedVal_stable rest m v hconsrest
      · rw [if_neg h2]
        obtain ⟨q, hq, hqm⟩ := hmem
        rcases List.mem_cons.mp hq with rfl | hqrest
        · exact absurd hqm (by simp [h1, h2])
        · exact ih orig ⟨q, hqrest, hqm⟩ hconsrest

theorem set_linked_message (e : MidiEvent) (v : Option Nat) :
    (e.set_linked_event v).message = e.message := rfl

theorem set_linked_self (e : MidiEvent) : e.set_linked_event e.linked_event = e := rfl

theorem set_linked_twice (e : MidiEvent) (v w : Option Nat) :
    (e.set_linked_event v).set_linked_event w = e.set_linked_event w := rfl

theorem noteIdx_on_or_off {m : MidiMessage} {idx : Nat} (h : noteIdx m = some idx) :
    m.is_note_on = true ∨ m.is_note_off = true := by
  cases m with
  | noteOn ch k v =>
    by_cases hv : v = 0
    · subst hv
      right
      rfl
    · left
      simp [MidiMessage.is_note_on, hv]
  | noteOff ch k v => right; rfl
  | _ => simp [noteIdx] at h

theorem noteKind_attack {m : MidiMessage} {idx : Nat} (hidx : noteIdx m = some idx)
    (hon : m.is_note_on = true) : noteKind m = some (idx, true) := by
  simp [noteKind, hidx, hon]

theorem noteKind_release {m : MidiMessage} {idx : Nat} (hidx : noteIdx m = some idx)
    (hon : m.is_note_on = false) (hoff : m.is_note_off = true) :
    noteKind m = some (idx, false) := by
  simp [noteKind, hidx, hon, hoff]

theorem noteKind_none {m : MidiMessage} (hidx : noteIdx m = none) : noteKind m = none := by
  simp [noteKind, hidx]

theorem pend_succ_none {es : List MidiEvent} {k : Nat} (hek : es[k]? = none) (idx : Nat) :
    pend es (k + 1) idx = pend es k idx := by
  rw [pend, hek]

theorem pend_succ_skip {es : List MidiEvent} {k : Nat} {e : MidiEvent}
    (hek : es[k]? = some e) (hnk : noteKind e.message = none) (idx : Nat) :
    pend es (k + 1) idx = pend es k idx := by
  rw [pend, hek]
  dsimp only
  rw [hnk]

theorem pend_succ_note {es : List MidiEvent} {k : Nat} {e : MidiEvent} {idx' : Nat} {b : Bool}
    (hek : es[k]? = some e) (hnk : noteKind e.message = some (idx', b)) (idx : Nat) :
    pend es (k + 1) idx =
      if idx' = idx then (if b then some k else none) else pend es k idx := by
  rw [pend, hek]
  dsimp only
  rw [hnk]

theorem pairsUpto_succ_none {es : List MidiEvent} {k : Nat} (hek : es[k]? = none) :
    pairsUpto es (k + 1) = pairsUpto es k := by
  rw [pairsUpto, hek]
  simp

theorem pairsUpto_succ_skip {es : List MidiEvent} {k : Nat} {e : MidiEvent}
    (hek : es[k]? = some e) (hnk : noteKind e.message = none) :
    pairsUpto es (k + 1) = pairsUpto es k := by
  rw [pairsUpto, hek]
  dsimp only
  rw [hnk]
  simp

theorem pairsUpto_succ_attack {es : List MidiEvent} {k : Nat} {e : MidiEvent} {idx : Nat}
    (hek : es[k]? = some e) (hnk : noteKind e.message = some (idx, true)) :
    pairsUpto es (k + 1) = pairsUpto es k := by
  rw [pairsUpto, hek]
  dsimp only
  rw [hnk]
  simp

theorem pairsUpto_succ_orphan {es : List MidiEvent} {k : Nat} {e : MidiEvent} {idx : Nat}
    (hek : es[k]? = some e) (hnk : noteKind e.message = some (idx, false))
    (hp : pend es k idx = none) :
    pairsUpto es (k + 1) = pairsUpto es k := by
  rw [pairsUpto, hek]
  dsimp only
  rw [hnk]
  dsimp only
  rw [hp]
  simp

theorem pairsUpto_succ_pair {es : List MidiEvent} {k : Nat} {e : MidiEvent} {idx j : Nat}
    (hek : es[k]? = some e) (hnk : noteKind e.message = some (idx, false))
    (hp : pend es k idx = some j) :
    pairsUpto es (k + 1) = pairsUpto es k ++ [(j, k)] := by
  rw [pairsUpto, hek]
  dsimp only
  rw [hnk]
  dsimp only
  rw [hp]

theorem linkedVal_append_single (pairs : List (Nat × Nat)) (a b m : Nat) (orig : Option Nat) :
    linkedVal (pairs ++ [(a, b)]) m orig =
      (if a = m then some b else if b = m then some a else linkedVal pairs m orig) := by
  rw [linkedVal, List.foldl_append]
  rfl

theorem linkFold_invariant (es : List MidiEvent) (hov : NoOverlap es) :
    ∀ k, k ≤ es.length →
      (∀ m : Nat, ((List.range k).foldl linkStep (es, fun _ => ([] : List Nat))).1[m]? =
        (es[m]?).map (fun e : MidiEvent =>
          e.set_linked_event (linkedVal (pairsUpto es k) m e.linked_event))) ∧
      (∀ idx, ((List.range k).foldl linkStep (es, fun _ => ([] : List Nat))).2 idx =
        (pend es k idx).toList) := by
  intro k
  induction k with
  | zero =>
    intro _
    constructor
    · intro m
      simp only [List.range_zero, List.foldl_nil]
      cases hm : es[m]? with
      | none => rfl
      | some e =>
        simp [pairsUpto, linkedVal, set_linked_self]
    · intro idx
      simp [pend]
  | succ k ih =>
    intro hk1
    have hk : k < es.length := by omega
    obtain ⟨ihA, ihB⟩ := ih (by omega)
    have hfold : (List.range (k + 1)).foldl linkStep (es, fun _ => ([] : List Nat)) =
        linkStep ((List.range k).foldl linkStep (es, fun _ => ([] : List Nat))) k := by
      rw [List.range_succ, List.foldl_append, List.foldl_cons, List.foldl_nil]
    rw [hfold]
    have hek : es[k]? = some es[k] := List.getElem?_eq_getElem hk
    have hstk : ((List.range k).foldl linkStep (es, fun _ => ([] : List Nat))).1[k]? =
        some (es[k].set_linked_event
          (linkedVal (pairsUpto es k) k es[k].linked_event)) := by
      rw [ihA k, hek]
      rfl
    rw [linkStep, hstk]
    dsimp only
    simp only [set_linked_message]
    cases hni : noteIdx es[k].message with
    | none =>
      try dsimp only
      have hnk := noteKind_none hni
      rw [pairsUpto_succ_skip hek hnk]
      constructor
      · exact ihA
      · intro idx
        rw [pend_succ_skip hek hnk idx]
        exact ihB idx
    | some idx =>
      try dsimp only
      by_cases hon : es[k].message.is_note_on = true
      · -- attack: push k on the queue for idx
        rw [if_pos hon]
        have hnk := noteKind_attack hni hon
        have hpnone : pend es k idx = none := hov k es[k] idx hek hnk
        rw [pairsUpto_succ_attack hek hnk]
        constructor
        · exact ihA
        · intro p
          rw [pend_succ_note hek hnk p]
          try dsimp only
          by_cases hp : p = idx
          · subst hp
            rw [if_pos rfl, if_pos rfl, ihB p, hpnone]
            rfl
          · rw [if_neg hp, if_neg (fun hc => hp hc.symm)]
            exact ihB p
      · rcases noteIdx_on_or_off hni with hon2 | hoff
        · exact absurd hon2 hon
        · rw [if_neg hon, if_pos hoff]
          have hnk := noteKind_release hni (by simpa using hon) hoff
          rw [ihB idx]
          cases hp : pend es k idx with
          | none =>
            try dsimp only [Option.toList]
            rw [pairsUpto_succ_orphan hek hnk hp]
            constructor
            · exact ihA
            · intro p
              rw [pend_succ_note hek hnk p]
              try dsimp only
              by_cases hpi : idx = p
              · subst hpi
                rw [if_pos rfl, ihB idx, hp]
                rfl
              · rw [if_neg hpi]
                exact ihB p
          | some j =>
            try dsimp only [Option.toList]
            have hjk : j < k := (pend_some hp).1
            have hjne : j ≠ k := by omega
            have hjlen : j < es.length := by omega
            have hej : es[j]? = some es[j] := List.getElem?_eq_getElem hjlen
            rw [pairsUpto_succ_pair hek hnk hp]
            constructor
            · intro m
              by_cases hmj : m = j
              · rw [hmj, List.getElem?_modify_ne _ _ hjne.symm,
                  List.getElem?_modify_eq, ihA j, hej]
                simp [linkedVal_append_single, set_linked_twice]
              · by_cases hmk : m = k
                · rw [hmk, List.getElem?_modify_eq,
                    List.getElem?_modify_ne _ _ hjne, hstk, hek]
                  simp [linkedVal_append_single, set_linked_twice, hjne]
                · rw [List.getElem?_modify_ne _ _ (fun hc => hmk hc.symm),
                    List.getElem?_modify_ne _ _ (fun hc => hmj hc.symm), ihA m]
                  cases hm : es[m]? with
                  | none => rfl
                  | some em =>
                    have hjm : j ≠ m := fun hc => hmj hc.symm
                    have hkm : k ≠ m := fun hc => hmk hc.symm
                    simp [linkedVal_append_single, hjm, hkm]
            · intro p
              rw [pend_succ_note hek hnk p]
              try dsimp only
              by_cases hpi : idx = p
              · subst hpi
                rw [if_pos rfl, if_pos rfl]
                rfl
              · rw [if_neg hpi, if_neg (fun hc => hpi hc.symm)]
                exact ihB p




theorem link_note_events_events (t : MidiTrack) (ht : t.sorted = true) :
    t.link_note_events.events =
      ((List.range t.events.length).foldl linkStep
        (t.events, fun _ => ([] : List Nat))).1 := by
  simp [MidiTrack.link_note_events, MidiTrack.sort, ht]

theorem pend_persists (es : List MidiEvent) (hov : NoOverlap es) (idx i : Nat) :
    ∀ d k, pend es k idx = some i →
      (∃ j, (i, j) ∈ pairsUpto es (k + d)) ∨ pend es (k + d) idx = some i := by
  intro d
  induction d with
  | zero => intro k h; exact Or.inr h
  | succ d ihd =>
    intro k h
    have hstep : (∃ j, (i, j) ∈ pairsUpto es (k + 1)) ∨ pend es (k + 1) idx = some i := by
      cases hek : es[k]? with
      | none => exact Or.inr (by rw [pend_succ_none hek]; exact h)
      | some e =>
        cases hnk : noteKind e.message with
        | none => exact Or.inr (by rw [pend_succ_skip hek hnk]; exact h)
        | some pr =>
          obtain ⟨idx2, b⟩ := pr
          by_cases hii : idx2 = idx
          · rw [hii] at hnk
            cases b with
            | true =>
              have hnone := hov k e idx hek hnk
              rw [hnone] at h
              exact absurd h (by simp)
            | false =>
              exact Or.inl ⟨k, by rw [pairsUpto_succ_pair hek hnk h]; simp⟩
          · exact Or.inr (by rw [pend_succ_note hek hnk idx, if_neg hii]; exact h)
    rcases hstep with ⟨j, hj⟩ | h2
    · exact Or.inl ⟨j, pairsUpto_mono (by omega) _ hj⟩
    · have hrec := ihd (k + 1) h2
      have harith : k + 1 + d = k + (d + 1) := by omega
      rw [harith] at hrec
      exact hrec

/-- C5: after `link_note_events` on an already-sorted track whose events
hold, per (channel, key), non-overlapping note-on/note-off pairs with every
note-on eventually released, each note-on is linked to the next release of
its key (with no overlap the oldest pending one), the two links are
symmetric (each member points at the other), a note-off with no pending
note-on keeps its event entirely unchanged (left unlinked rather than an
error), and events that are not note messages are untouched. -/
theorem c5_note_linking (t : MidiTrack) (ht : t.sorted = true)
    (hov : NoOverlap t.events) (hcl : AllClosed t.events) :
    (∀ (i : Nat) (e : MidiEvent) (idx : Nat),
      t.events[i]? = some e → noteKind e.message = some (idx, true) →
      ∃ (j : Nat) (e2 : MidiEvent), i < j ∧ t.events[j]? = some e2 ∧
        noteKind e2.message = some (idx, false) ∧
        (∀ m : Nat, i < m → m < j → ∀ (em : MidiEvent) (b : Bool), t.events[m]? = some em →
          noteKind em.message ≠ some (idx, b)) ∧
        t.link_note_events.events[i]? = some (e.set_linked_event (some j)) ∧
        t.link_note_events.events[j]? = some (e2.set_linked_event (some i))) ∧
    (∀ (j : Nat) (e : MidiEvent) (idx : Nat),
      t.events[j]? = some e → noteKind e.message = some (idx, false) →
      pend t.events j idx = none → t.link_note_events.events[j]? = some e) ∧
    (∀ (m : Nat) (e : MidiEvent), t.events[m]? = some e → noteKind e.message = none →
      t.link_note_events.events[m]? = some e) := by
  have hlink := link_note_events_events t ht
  obtain ⟨hA, hB⟩ := linkFold_invariant t.events hov t.events.length (le_refl _)
  refine ⟨?_, ?_, ?_⟩
  · intro i e idx hei hki
    have hp1 : pend t.events (i + 1) idx = some i := by
      rw [@pend_succ_note t.events i e idx true hei hki idx, if_pos rfl]
      rfl
    have hilen : i < t.events.length := (List.getElem?_eq_some_iff.mp hei).1
    have hpers := pend_persists t.events hov idx i (t.events.length - (i + 1)) (i + 1) hp1
    have harith : i + 1 + (t.events.length - (i + 1)) = t.events.length := by omega
    rw [harith] at hpers
    rcases hpers with ⟨j, hij⟩ | hbad
    · obtain ⟨hjlen, e2, idx2, hej, hkj, hpd⟩ := mem_pairsUpto.mp hij
      dsimp only at hjlen hej hkj hpd
      obtain ⟨hij_lt, ⟨ea, hea, hka⟩, hbetween⟩ := pend_some hpd
      rw [hei] at hea
      simp only [Option.some.injEq] at hea
      subst hea
      obtain ⟨hidx2, -⟩ := noteKind_det hka hki
      subst hidx2
      have hconsI : ∀ p ∈ pairsUpto t.events t.events.length,
          (p.1 = i → p.2 = j) ∧ (p.2 = i → p.1 = j) := by
        intro p hpmem
        constructor
        · intro h1
          have hpq : p = (i, j) := pairs_on_unique hpmem hij h1
          rw [hpq]
        · intro h2
          exact absurd h2.symm (pairs_roles_disjoint hij hpmem)
      have hconsJ : ∀ p ∈ pairsUpto t.events t.events.length,
          (p.1 = j → p.2 = i) ∧ (p.2 = j → p.1 = i) := by
        intro p hpmem
        constructor
        · intro h1
          exact absurd h1 (pairs_roles_disjoint hpmem hij)
        · intro h2
          have hpq : p = (i, j) := pairs_off_unique hpmem hij h2
          rw [hpq]
      refine ⟨j, e2, hij_lt, hej, hkj, hbetween, ?_, ?_⟩
      · rw [hlink, hA i, hei]
        dsimp only [Option.map]
        rw [linkedVal_mem _ i j _ ⟨(i, j), hij, Or.inl rfl⟩ hconsI]
      · rw [hlink, hA j, hej]
        dsimp only [Option.map]
        rw [linkedVal_mem _ j i _ ⟨(i, j), hij, Or.inr rfl⟩ hconsJ]
    · rw [hcl idx] at hbad
      exact absurd hbad (by simp)
  · intro j e idx hej hkj hpnone
    rw [hlink, hA j, hej]
    dsimp only [Option.map]
    have hno : ∀ p ∈ pairsUpto t.events t.events.length, p.1 ≠ j ∧ p.2 ≠ j := by
      intro p hpmem
      obtain ⟨hplen, ep, idxp, hep, hkp, hpdp⟩ := mem_pairsUpto.mp hpmem
      constructor
      · intro hc
        obtain ⟨-, ⟨ea, hea, hka⟩, -⟩ := pend_some hpdp
        rw [hc, hej] at hea
        simp only [Option.some.injEq] at hea
        subst hea
        obtain ⟨-, hb⟩ := noteKind_det hka hkj
        exact absurd hb (by simp)
      · intro hc
        rw [hc, hej] at hep
        simp only [Option.some.injEq] at hep
        subst hep
        obtain ⟨hidx, -⟩ := noteKind_det hkp hkj
        rw [hidx, hc, hpnone] at hpdp
        exact absurd hpdp (by simp)
    rw [linkedVal_not_mem _ _ _ hno, set_linked_self]
  · intro m e hem hkm
    rw [hlink, hA m, hem]
    dsimp only [Option.map]
    have hno : ∀ p ∈ pairsUpto t.events t.events.length, p.1 ≠ m ∧ p.2 ≠ m := by
      intro p hpmem
      obtain ⟨hplen, ep, idxp, hep, hkp, hpdp⟩ := mem_pairsUpto.mp hpmem
      constructor
      · intro hc
        obtain ⟨-, ⟨ea, hea, hka⟩, -⟩ := pend_some hpdp
        rw [hc, hem] at hea
        simp only [Option.some.injEq] at hea
        subst hea
        rw [hkm] at hka
        exact absurd hka (by simp)
      · intro hc
        rw [hc, hem] at hep
        simp only [Option.some.injEq] at hep
        subst hep
        rw [hkm] at hkp
        exact absurd hkp (by simp)
    rw [linkedVal_not_mem _ _ _ hno, set_linked_self]

theorem c5_note_linking_witness :
    ∃ (j : Nat) (e2 : MidiEvent), 0 < j ∧ c5Track.events[j]? = some e2 ∧
      noteKind e2.message = some (60, false) ∧
      (∀ m : Nat, 0 < m → m < j → ∀ (em : MidiEvent) (b : Bool), c5Track.events[m]? = some em →
        noteKind em.message ≠ some (60, b)) ∧
      c5Track.link_note_events.events[0]? = some (c5On.set_linked_event (some j)) ∧
      c5Track.link_note_events.events[j]? = some (e2.set_linked_event (some 0)) := by
  have hov : NoOverlap c5Track.events := by
    intro k e idx hk hnk
    cases k with
    | zero => rfl
    | succ k1 =>
      cases k1 with
      | zero =>
        simp only [show c5Track.events[1]? = some c5Off from rfl,
          Option.some.injEq] at hk
        subst hk
        rw [show noteKind c5Off.message = some (60, false) from rfl] at hnk
        simp at hnk
      | succ k2 => simp [c5Track] at hk
  have hcl : AllClosed c5Track.events := by
    intro idx
    show pend c5Track.events 2 idx = none
    rw [@pend_succ_note c5Track.events 1 c5Off 60 false rfl rfl idx]
    by_cases h : 60 = idx
    · rw [if_pos h]
      rfl
    · rw [if_neg h, @pend_succ_note c5Track.events 0 c5On 60 true rfl rfl idx,
        if_neg h]
      rfl
  exact (c5_note_linking c5Track rfl hov hcl).1 0 c5On 60 rfl rfl

end MidiSpec
